import Mathlib

/-!
Shallow embedding of `adrien19/dockermonitor` (`src/main.go`).

Go strings are modelled as `List Char`; the external `docker` command
invocations are modelled by passing each invocation's result
(`Except GoError (List Char)`) as an explicit input, exactly the value the
Go code receives from `cmd.Output()` / `cmd.CombinedOutput()`.
`encoding/json.Unmarshal` into the flat all-string structs is modelled in
two stages, as in Go: full syntax validation-plus-parse of the document
(all value kinds, string escapes including `\uXXXX` with Go's
surrogate-pair handling, and the scanner's nesting-depth limit), then a
decode that offers each object member with a JSON-string value to the
case-insensitively matching field and skips everything else — unknown
members of any type silently, type-mismatched members with the error saved
and decoding continuing — so a syntax error is the one case that leaves the
whole zero value, exactly `Unmarshal`'s behaviour.  Key matching is ASCII
case folding; Go's `EqualFold` additionally folds a few non-ASCII
codepoints (Kelvin sign, long s) onto ASCII letters, a corner this model
does not reproduce.
-/

set_option maxHeartbeats 1000000

set_option maxRecDepth 100000

/-- The `"` character (written by code to avoid clashing with string syntax). -/
def quoteC : Char := '\x22'

/-- The `{` character. -/
def lbraceC : Char := '\x7b'

/-- The `}` character. -/
def rbraceC : Char := '\x7d'

/-- The `\` character. -/
def bsC : Char := '\\'

/-- Decides whether `p` is a leading piece of `s` (Go `strings.HasPrefix`). -/
def isPre : List Char → List Char → Bool
  | [], _ => true
  | _ :: _, [] => false
  | a :: as, b :: bs => if a = b then isPre as bs else false

/-- Decides whether `p` occurs as a contiguous substring of `s`
(Go `strings.Contains`). -/
def hasSub (p : List Char) : List Char → Bool
  | [] => isPre p []
  | c :: rest => isPre p (c :: rest) || hasSub p rest

/-- Worker for `replaceAllGo`: the pattern is `o :: os` (always nonempty).
Scans left to right, replacing each non-overlapping occurrence, exactly as
Go's `strings.ReplaceAll`.  The structural `fuel` (always at least the
input length at the call site) keeps the definition kernel-reducible. -/
def replaceAllFuel (o : Char) (os new : List Char) : Nat → List Char → List Char
  | 0, s => s
  | _ + 1, [] => []
  | fuel + 1, c :: rest =>
    if isPre (o :: os) (c :: rest) then
      new ++ replaceAllFuel o os new fuel (rest.drop os.length)
    else
      c :: replaceAllFuel o os new fuel rest

/-- Go `strings.ReplaceAll(s, old, new)`.  With an empty `old`, Go inserts
`new` at every rune boundary including both ends. -/
def replaceAllGo (s old new : List Char) : List Char :=
  match old with
  | [] => new ++ s.foldr (fun c acc => c :: (new ++ acc)) []
  | o :: os => replaceAllFuel o os new s.length s

/-- Worker for `splitGo`: the separator is `s0 :: ss` (always nonempty);
`fuel` as in `replaceAllFuel`. -/
def splitFuel (s0 : Char) (ss : List Char) : Nat → List Char → List (List Char)
  | 0, s => [s]
  | _ + 1, [] => [[]]
  | fuel + 1, c :: rest =>
    if isPre (s0 :: ss) (c :: rest) then
      [] :: splitFuel s0 ss fuel (rest.drop ss.length)
    else
      match splitFuel s0 ss fuel rest with
      | [] => [[c]]
      | t :: ts => (c :: t) :: ts

/-- Go `strings.Split(s, sep)`.  With an empty separator Go splits into
single runes. -/
def splitGo (s sep : List Char) : List (List Char) :=
  match sep with
  | [] => s.map (fun c => [c])
  | s0 :: ss => splitFuel s0 ss s.length s

/-- Go `unicode.IsSpace` (the White_Space property). -/
def goIsSpace (c : Char) : Bool :=
  c.toNat = 9 || c.toNat = 10 || c.toNat = 11 || c.toNat = 12 || c.toNat = 13 ||
  c.toNat = 32 || c.toNat = 0x85 || c.toNat = 0xA0 || c.toNat = 0x1680 ||
  (0x2000 ≤ c.toNat && c.toNat ≤ 0x200A) || c.toNat = 0x2028 ||
  c.toNat = 0x2029 || c.toNat = 0x202F || c.toNat = 0x205F || c.toNat = 0x3000

/-- Go `strings.TrimSpace`. -/
def trimSpaceGo (s : List Char) : List Char :=
  (((s.dropWhile goIsSpace).reverse).dropWhile goIsSpace).reverse

/-- Go `strings.HasSuffix`. -/
def hasSuffixGo (s suffix : List Char) : Bool :=
  isPre suffix.reverse s.reverse

/-- `main.go` lines 108-113: strip one copy of `suffix` from the end of `s`
when present. -/
def TrimSuffix (s suffix : List Char) : List Char :=
  if hasSuffixGo s suffix then s.take (s.length - suffix.length) else s

/-- `main.go` `ContainerInfo` (all fields are Go strings). -/
structure ContainerInfo where
  Command : List Char
  CreatedAt : List Char
  ID : List Char
  Image : List Char
  Labels : List Char
  LocalVolumes : List Char
  Mounts : List Char
  Names : List Char
  Networks : List Char
  Ports : List Char
  RunningFor : List Char
  Size : List Char
  State : List Char
  Status : List Char
deriving DecidableEq

/-- `main.go` `ImageInfo` (all fields are Go strings). -/
structure ImageInfo where
  Containers : List Char
  CreatedAt : List Char
  CreatedSince : List Char
  Digest : List Char
  ID : List Char
  Repository : List Char
  SharedSize : List Char
  Size : List Char
  Tag : List Char
  UniqueSize : List Char
  VirtualSize : List Char
deriving DecidableEq

/-- `main.go` `DockerEnvironment`. -/
structure DockerEnvironment where
  Environment : List Char
  StoppedContainers : Nat
  RunningContainers : Nat
  DockerVersion : List Char
  TotalLocalDockerImages : Nat
  ContainersInfo : List ContainerInfo
  ImagesInfo : List ImageInfo
deriving DecidableEq

/-- `main.go` `DockerMonitor`. -/
structure DockerMonitor where
  DockerEnvironments : List DockerEnvironment
deriving DecidableEq

/-- The zero value of `ContainerInfo` (what a fresh `var jsonContainer
ContainerInfo` holds in Go). -/
def zeroContainer : ContainerInfo :=
  { Command := [], CreatedAt := [], ID := [], Image := [], Labels := [],
    LocalVolumes := [], Mounts := [], Names := [], Networks := [], Ports := [],
    RunningFor := [], Size := [], State := [], Status := [] }

/-- The zero value of `ImageInfo`. -/
def zeroImage : ImageInfo :=
  { Containers := [], CreatedAt := [], CreatedSince := [], Digest := [], ID := [],
    Repository := [], SharedSize := [], Size := [], Tag := [], UniqueSize := [],
    VirtualSize := [] }

/-- `main.go` lines 59-78, `NewDockerMonitor`: one zero-initialised entry per
input name, in input order (the Go loop appends one entry per name). -/
def initialEnvironment (env : List Char) : DockerEnvironment :=
  { Environment := env, StoppedContainers := 0, RunningContainers := 0,
    DockerVersion := [], TotalLocalDockerImages := 0, ContainersInfo := [],
    ImagesInfo := [] }

/-- `main.go` `NewDockerMonitor`. -/
def NewDockerMonitor (envs : List (List Char)) : DockerMonitor :=
  { DockerEnvironments := envs.map initialEnvironment }

/-- JSON insignificant whitespace (space, tab, newline, carriage return). -/
def jsonWs (c : Char) : Bool :=
  c.toNat = 32 || c.toNat = 9 || c.toNat = 10 || c.toNat = 13

/-- Skip JSON whitespace. -/
def skipWs (s : List Char) : List Char := s.dropWhile jsonWs

/-- The one-character JSON string escapes; `\uXXXX` is handled separately
by `parseJstr`, with Go's surrogate-pair logic. -/
def unescapeChar (e : Char) : Option Char :=
  if e = quoteC then some quoteC
  else if e = bsC then some bsC
  else if e = '/' then some '/'
  else if e = 'n' then some '\n'
  else if e = 't' then some '\t'
  else if e = 'r' then some '\r'
  else if e = 'b' then some (Char.ofNat 8)
  else if e = 'f' then some (Char.ofNat 12)
  else none

/-- `encoding/json`'s scanner constant `maxNestingDepth`: a document whose
objects/arrays nest deeper is a syntax error. -/
def maxNestingDepth : Nat := 10000

/-- ASCII decimal digit. -/
def isDigitC (c : Char) : Bool := 48 ≤ c.toNat && c.toNat ≤ 57

/-- Hex digit value, as accepted inside `\uXXXX`. -/
def hexDigitVal (c : Char) : Option Nat :=
  if 48 ≤ c.toNat && c.toNat ≤ 57 then some (c.toNat - 48)
  else if 97 ≤ c.toNat && c.toNat ≤ 102 then some (c.toNat - 87)
  else if 65 ≤ c.toNat && c.toNat ≤ 70 then some (c.toNat - 55)
  else none

/-- Read four hex digits (the `XXXX` of a `\uXXXX` escape). -/
def getu4 : List Char → Option (Nat × List Char)
  | c1 :: c2 :: c3 :: c4 :: rest =>
    match hexDigitVal c1, hexDigitVal c2, hexDigitVal c3, hexDigitVal c4 with
    | some h1, some h2, some h3, some h4 =>
      some (((h1 * 16 + h2) * 16 + h3) * 16 + h4, rest)
    | _, _, _, _ => none
  | _ => none

/-- Read a whole following `\uXXXX` escape (Go's `getu4` on the bytes after
a surrogate, used when attempting to pair it). -/
def getEscU : List Char → Option (Nat × List Char)
  | c0 :: c1 :: rest => if c0 = bsC ∧ c1 = 'u' then getu4 rest else none
  | _ => none

/-- UTF-16 surrogate code unit. -/
def isSurrogateCode (n : Nat) : Bool := 0xD800 ≤ n && n ≤ 0xDFFF

/-- UTF-16 high surrogate. -/
def isHighSurrogateCode (n : Nat) : Bool := 0xD800 ≤ n && n ≤ 0xDBFF

/-- UTF-16 low surrogate. -/
def isLowSurrogateCode (n : Nat) : Bool := 0xDC00 ≤ n && n ≤ 0xDFFF

/-- `unicode.ReplacementChar`, U+FFFD. -/
def replacementChar : Char := Char.ofNat 0xFFFD

/-- Parse the body of a JSON string after its opening quote; returns the
decoded content and the rest of the input after the closing quote.  Mirrors
Go: raw control characters and unknown escapes are syntax errors
(`checkValid`), and `\uXXXX` follows `unquote`: a valid surrogate pair
combines, an unpaired or mispaired surrogate becomes U+FFFD without
consuming the following escape.  Structural `fuel` of at least the input
length suffices. -/
def parseJstr : Nat → List Char → Option (List Char × List Char)
  | 0, _ => none
  | _ + 1, [] => none
  | fuel + 1, c :: rest =>
    if c = quoteC then some ([], rest)
    else if c = bsC then
      match rest with
      | [] => none
      | e :: rest2 =>
        if e = 'u' then
          match getu4 rest2 with
          | none => none
          | some (n, rest3) =>
            if isSurrogateCode n then
              match getEscU rest3 with
              | some (n2, rest4) =>
                if isHighSurrogateCode n && isLowSurrogateCode n2 then
                  match parseJstr fuel rest4 with
                  | none => none
                  | some (s, r) =>
                    some (Char.ofNat (0x10000 + (n - 0xD800) * 0x400 + (n2 - 0xDC00)) :: s, r)
                else
                  match parseJstr fuel rest3 with
                  | none => none
                  | some (s, r) => some (replacementChar :: s, r)
              | none =>
                match parseJstr fuel rest3 with
                | none => none
                | some (s, r) => some (replacementChar :: s, r)
            else
              match parseJstr fuel rest3 with
              | none => none
              | some (s, r) => some (Char.ofNat n :: s, r)
        else
          match unescapeChar e with
          | none => none
          | some ce =>
            match parseJstr fuel rest2 with
            | none => none
            | some (s, r) => some (ce :: s, r)
    else if c.toNat < 32 then none
    else
      match parseJstr fuel rest with
      | none => none
      | some (s, r) => some (c :: s, r)

/-- Validate an optional JSON fraction part. -/
def parseFrac : List Char → Option (List Char)
  | '.' :: r =>
    match r with
    | d :: _ => if isDigitC d then some (r.dropWhile isDigitC) else none
    | [] => none
  | s => some s

/-- Digits of an exponent. -/
def parseExpDigits : List Char → Option (List Char)
  | d :: r => if isDigitC d then some ((d :: r).dropWhile isDigitC) else none
  | [] => none

/-- Validate an optional JSON exponent part. -/
def parseExp : List Char → Option (List Char)
  | c :: r =>
    if c = 'e' ∨ c = 'E' then
      match r with
      | s0 :: r3 => if s0 = '+' ∨ s0 = '-' then parseExpDigits r3 else parseExpDigits (s0 :: r3)
      | [] => none
    else some (c :: r)
  | [] => some []

/-- Validate a JSON number beginning at the current character (the scanner's
grammar: optional minus, `0` or a nonzero-led digit run, optional fraction,
optional exponent); returns the rest of the input. -/
def parseNumberStart (s : List Char) : Option (List Char) :=
  let s1 := match s with
    | m :: r => if m = '-' then r else s
    | [] => s
  match s1 with
  | c :: r =>
    if c = '0' then
      match parseFrac r with
      | none => none
      | some r2 => parseExp r2
    else if isDigitC c then
      match parseFrac ((c :: r).dropWhile isDigitC) with
      | none => none
      | some r2 => parseExp r2
    else none
  | [] => none

/-- Expect the given literal characters (the tails of `true`, `false`,
`null`). -/
def expectLit (lit s : List Char) : Option (List Char) :=
  if isPre lit s then some (s.drop lit.length) else none

/-- A parsed JSON value, with exactly the detail decoding into the
all-string structs consumes: string contents are kept; numbers, booleans
and `null` collapse to `other` (`Unmarshal` never stores them in a string
field — for a matching key it saves an `UnmarshalTypeError` and continues,
for an unknown key it skips silently). -/
inductive Jval where
  | str (s : List Char)
  | other
  | arr (xs : List Jval)
  | obj (ms : List (List Char × Jval))

mutual

/-- Parse one JSON value.  `fuel` of at least the input length plus one
suffices (each recursion first consumes input); `depth` counts enclosing
composites against `maxNestingDepth`, as Go's scanner does. -/
def parseJval : Nat → Nat → List Char → Option (Jval × List Char)
  | 0, _, _ => none
  | fuel + 1, depth, s =>
    match skipWs s with
    | [] => none
    | c :: rest =>
      if c = quoteC then
        match parseJstr (rest.length + 1) rest with
        | none => none
        | some (sv, r) => some (Jval.str sv, r)
      else if c = lbraceC then
        if maxNestingDepth < depth + 1 then none
        else
          match skipWs rest with
          | [] => none
          | c2 :: r2 =>
            if c2 = rbraceC then some (Jval.obj [], r2)
            else
              match parseJmembers fuel (depth + 1) (c2 :: r2) with
              | none => none
              | some (ms, r3) => some (Jval.obj ms, r3)
      else if c = '[' then
        if maxNestingDepth < depth + 1 then none
        else
          match skipWs rest with
          | [] => none
          | c2 :: r2 =>
            if c2 = ']' then some (Jval.arr [], r2)
            else
              match parseJelems fuel (depth + 1) (c2 :: r2) with
              | none => none
              | some (xs, r3) => some (Jval.arr xs, r3)
      else if c = 't' then
        match expectLit ("rue".toList) rest with
        | none => none
        | some r2 => some (Jval.other, r2)
      else if c = 'f' then
        match expectLit ("alse".toList) rest with
        | none => none
        | some r2 => some (Jval.other, r2)
      else if c = 'n' then
        match expectLit ("ull".toList) rest with
        | none => none
        | some r2 => some (Jval.other, r2)
      else
        match parseNumberStart (c :: rest) with
        | none => none
        | some r2 => some (Jval.other, r2)

/-- Parse a nonempty `"key": value (, "key": value)*` member list and its
closing brace. -/
def parseJmembers : Nat → Nat → List Char → Option (List (List Char × Jval) × List Char)
  | 0, _, _ => none
  | fuel + 1, depth, s =>
    match skipWs s with
    | [] => none
    | c :: rest =>
      if c = quoteC then
        match parseJstr (rest.length + 1) rest with
        | none => none
        | some (k, r1) =>
          match skipWs r1 with
          | ':' :: r2 =>
            match parseJval fuel depth r2 with
            | none => none
            | some (v, r3) =>
              match skipWs r3 with
              | ',' :: r4 =>
                match parseJmembers fuel depth r4 with
                | none => none
                | some (ms, r5) => some ((k, v) :: ms, r5)
              | rb :: r4 => if rb = rbraceC then some ([(k, v)], r4) else none
              | [] => none
          | _ => none
      else none

/-- Parse a nonempty `value (, value)*` element list and its closing
bracket. -/
def parseJelems : Nat → Nat → List Char → Option (List Jval × List Char)
  | 0, _, _ => none
  | fuel + 1, depth, s =>
    match parseJval fuel depth s with
    | none => none
    | some (v, r1) =>
      match skipWs r1 with
      | ',' :: r2 =>
        match parseJelems fuel depth r2 with
        | none => none
        | some (xs, r3) => some (v :: xs, r3)
      | rb :: r2 => if rb = ']' then some ([v], r2) else none
      | [] => none

end

/-- `json.Unmarshal`'s up-front validation and parse of the whole document:
one JSON value with nothing but whitespace after it. -/
def parseJsonDoc (s : List Char) : Option Jval :=
  match parseJval (s.length + 1) 0 s with
  | none => none
  | some (v, rest) => if skipWs rest = [] then some v else none

/-- ASCII lower-casing, used for Go's case-insensitive json key matching. -/
def lowerAscii (s : List Char) : List Char :=
  s.map (fun c => if 65 ≤ c.toNat && c.toNat ≤ 90 then Char.ofNat (c.toNat + 32) else c)

/-- Assign one decoded json member to its `ContainerInfo` field (tags from
`main.go` lines 28-43; matching is case-insensitive as in Go). -/
def applyContainerField (c : ContainerInfo) (kv : List Char × List Char) : ContainerInfo :=
  let k := lowerAscii kv.1
  if k = "command".toList then { c with Command := kv.2 }
  else if k = "createdat".toList then { c with CreatedAt := kv.2 }
  else if k = "id".toList then { c with ID := kv.2 }
  else if k = "image".toList then { c with Image := kv.2 }
  else if k = "labels".toList then { c with Labels := kv.2 }
  else if k = "localvolumes".toList then { c with LocalVolumes := kv.2 }
  else if k = "mounts".toList then { c with Mounts := kv.2 }
  else if k = "names".toList then { c with Names := kv.2 }
  else if k = "networks".toList then { c with Networks := kv.2 }
  else if k = "ports".toList then { c with Ports := kv.2 }
  else if k = "runningfor".toList then { c with RunningFor := kv.2 }
  else if k = "size".toList then { c with Size := kv.2 }
  else if k = "state".toList then { c with State := kv.2 }
  else if k = "status".toList then { c with Status := kv.2 }
  else c

/-- How `Unmarshal` treats one object member against `ContainerInfo`: a
JSON-string value is offered to the case-insensitively matching field
(unknown keys fall through unchanged); a value of any other type is skipped
and decoding continues — silently for an unknown key, with an
`UnmarshalTypeError` saved for a matching key — leaving the field unset
either way. -/
def decodeContainerMember (c : ContainerInfo) (kv : List Char × Jval) : ContainerInfo :=
  match kv.2 with
  | Jval.str sv => applyContainerField c (kv.1, sv)
  | _ => c

/-- `json.Unmarshal([]byte(s), &jsonContainer)` with `jsonContainer` starting
at its zero value (`main.go` line 134 ignores the returned error): a syntax
error, or a document that is not an object, leaves the zero value; an
object document is decoded member by member, the last duplicate winning. -/
def unmarshalContainer (s : List Char) : ContainerInfo :=
  match parseJsonDoc s with
  | some (Jval.obj ms) => ms.foldl decodeContainerMember zeroContainer
  | _ => zeroContainer

/-- Assign one decoded json member to its `ImageInfo` field (tags from
`main.go` lines 45-57; note the source's tag for `CreatedSince` is
`createSince`). -/
def applyImageField (c : ImageInfo) (kv : List Char × List Char) : ImageInfo :=
  let k := lowerAscii kv.1
  if k = "containers".toList then { c with Containers := kv.2 }
  else if k = "createdat".toList then { c with CreatedAt := kv.2 }
  else if k = "createsince".toList then { c with CreatedSince := kv.2 }
  else if k = "digest".toList then { c with Digest := kv.2 }
  else if k = "id".toList then { c with ID := kv.2 }
  else if k = "repository".toList then { c with Repository := kv.2 }
  else if k = "sharedsize".toList then { c with SharedSize := kv.2 }
  else if k = "size".toList then { c with Size := kv.2 }
  else if k = "tag".toList then { c with Tag := kv.2 }
  else if k = "uniquesize".toList then { c with UniqueSize := kv.2 }
  else if k = "virtualsize".toList then { c with VirtualSize := kv.2 }
  else c

/-- The `ImageInfo` analogue of `decodeContainerMember`. -/
def decodeImageMember (c : ImageInfo) (kv : List Char × Jval) : ImageInfo :=
  match kv.2 with
  | Jval.str sv => applyImageField c (kv.1, sv)
  | _ => c

/-- `json.Unmarshal([]byte(s), &jsonImage)` (`main.go` line 183). -/
def unmarshalImage (s : List Char) : ImageInfo :=
  match parseJsonDoc s with
  | some (Jval.obj ms) => ms.foldl decodeImageMember zeroImage
  | _ => zeroImage

/-- The sentinel `<===>` inserted by the splitter. -/
def sentinelL : List Char := "<===>".toList

/-- The Go literal `"\"{\"Command\":"` — the leading-field marker of a quoted
container record (`main.go` line 123). -/
def markerContainer : List Char := "\x22\x7b\x22Command\x22:".toList

/-- The Go literal `"\"{\"Containers\":"` — the leading-field marker of a
quoted image record (`main.go` line 172). -/
def markerImage : List Char := "\x22\x7b\x22Containers\x22:".toList

/-- The split separator `<===>"` (`main.go` lines 124 and 173). -/
def sepL : List Char := "<===>\x22".toList

/-- `main.go` line 123: insert the sentinel before every occurrence of the
container marker. -/
def adjustedContainers (out : List Char) : List Char :=
  replaceAllGo out markerContainer (sentinelL ++ markerContainer)

/-- `main.go` line 124: `containersArray`. -/
def containersArray (out : List Char) : List (List Char) :=
  splitGo (adjustedContainers out) sepL

/-- `main.go` line 172: insert the sentinel before every occurrence of the
image marker. -/
def adjustedImages (out : List Char) : List Char :=
  replaceAllGo out markerImage (sentinelL ++ markerImage)

/-- `main.go` line 173: `imagesArray`. -/
def imagesArray (out : List Char) : List (List Char) :=
  splitGo (adjustedImages out) sepL

/-- Per-fragment processing of `main.go` lines 131-134: trim space, strip one
trailing quote, unmarshal. -/
def procContainerFragment (cont : List Char) : ContainerInfo :=
  unmarshalContainer (TrimSuffix (trimSpaceGo cont) [quoteC])

/-- State of the container loop of `main.go` lines 126-142. -/
structure ContScan where
  stopped : Nat
  running : Nat
  containerOutput : List ContainerInfo
deriving DecidableEq

/-- One iteration of `main.go` lines 129-141 (for `index ≠ 0`). -/
def contStep (acc : ContScan) (cont : List Char) : ContScan :=
  let jsonContainer := procContainerFragment cont
  { stopped := if jsonContainer.State = "exited".toList then acc.stopped + 1 else acc.stopped,
    running := if jsonContainer.State = "exited".toList then acc.running else acc.running + 1,
    containerOutput := acc.containerOutput ++ [jsonContainer] }

/-- The whole loop of `main.go` lines 126-142: the `index != 0` guard skips
exactly the first fragment of the split. -/
def contScan (arr : List (List Char)) : ContScan :=
  (arr.drop 1).foldl contStep { stopped := 0, running := 0, containerOutput := [] }

/-- Per-fragment processing of `main.go` lines 179-183. -/
def procImageFragment (img : List Char) : ImageInfo :=
  unmarshalImage (TrimSuffix (trimSpaceGo img) [quoteC])

/-- State of the image loop of `main.go` lines 175-191. -/
structure ImgScan where
  totalImages : Nat
  imageOutput : List ImageInfo
deriving DecidableEq

/-- One iteration of `main.go` lines 177-190 (for `index ≠ 0`); the
kubernetes-image filter is commented out in the source. -/
def imgStep (acc : ImgScan) (img : List Char) : ImgScan :=
  let jsonImage := procImageFragment img
  { totalImages := acc.totalImages + 1,
    imageOutput := acc.imageOutput ++ [jsonImage] }

/-- The whole loop of `main.go` lines 175-191. -/
def imgScan (arr : List (List Char)) : ImgScan :=
  (arr.drop 1).foldl imgStep { totalImages := 0, imageOutput := [] }

/-- Per-entry update of `CheckDockerVersion.execute` (`main.go` lines 95-99):
entries whose name equals the target get the version overwritten.  The Go
loop writes through `DockerEnvironments[index]` for every index whose entry
matches, i.e. it is a map over the slice. -/
def versionEntryUpdate (env version : List Char) (d : DockerEnvironment) : DockerEnvironment :=
  if d.Environment = env then { d with DockerVersion := version } else d

/-- Registry update of `CheckDockerVersion.execute` on command success. -/
def updateDockerVersion (m : DockerMonitor) (env version : List Char) : DockerMonitor :=
  { m with DockerEnvironments := m.DockerEnvironments.map (versionEntryUpdate env version) }

/-- Per-entry update of `CheckContainersStatus.execute` (`main.go` lines
148-154). -/
def containersEntryUpdate (env : List Char) (r : ContScan) (d : DockerEnvironment) : DockerEnvironment :=
  if d.Environment = env then
    { d with StoppedContainers := r.stopped, RunningContainers := r.running,
             ContainersInfo := r.containerOutput }
  else d

/-- Registry update of `CheckContainersStatus.execute` on command success
(`main.go` lines 122-154). -/
def updateContainersStatus (m : DockerMonitor) (env out : List Char) : DockerMonitor :=
  let r := contScan (containersArray out)
  { m with DockerEnvironments := m.DockerEnvironments.map (containersEntryUpdate env r) }

/-- Per-entry update of `CheckLocalImages.execute` (`main.go` lines 193-198). -/
def imagesEntryUpdate (env : List Char) (r : ImgScan) (d : DockerEnvironment) : DockerEnvironment :=
  if d.Environment = env then
    { d with TotalLocalDockerImages := r.totalImages, ImagesInfo := r.imageOutput }
  else d

/-- Registry update of `CheckLocalImages.execute` on command success
(`main.go` lines 171-198). -/
def updateLocalImages (m : DockerMonitor) (env out : List Char) : DockerMonitor :=
  let r := imgScan (imagesArray out)
  { m with DockerEnvironments := m.DockerEnvironments.map (imagesEntryUpdate env r) }

/-- An opaque Go `error` value returned by a failed command invocation. -/
structure GoError where
  msg : List Char
deriving DecidableEq

deriving instance DecidableEq for Except

/-- The three `Action` implementations of `main.go`. -/
inductive ProbeKind where
  | version
  | containersStatus
  | localImages
deriving DecidableEq

/-- One `Action` occurrence together with the result its external command
invocation produces when this occurrence runs (`cmd.Output()` /
`cmd.CombinedOutput()` is the only external input of each probe). -/
structure ActionInvocation where
  kind : ProbeKind
  cmdResult : Except GoError (List Char)
deriving DecidableEq

/-- The per-entry update a successful probe applies, by kind. -/
def probeEntryUpdate (kind : ProbeKind) (env out : List Char) (d : DockerEnvironment) : DockerEnvironment :=
  match kind with
  | .version => versionEntryUpdate env out d
  | .containersStatus => containersEntryUpdate env (contScan (containersArray out)) d
  | .localImages => imagesEntryUpdate env (imgScan (imagesArray out)) d

/-- `execute(env)` of each probe: on a command error the error is returned
before any registry access (`main.go` lines 89-91, 119-121, 168-170);
otherwise the registry entries matching `env` are overwritten and `nil` is
returned.  The monitor is the Go heap state reached through the probe's
`dockerMonitor` back-reference. -/
def executeAction (a : ActionInvocation) (env : List Char) (m : DockerMonitor) :
    DockerMonitor × Option GoError :=
  match a.cmdResult with
  | .error e => (m, some e)
  | .ok out =>
    match a.kind with
    | .version => (updateDockerVersion m env out, none)
    | .containersStatus => (updateContainersStatus m env out, none)
    | .localImages => (updateLocalImages m env out, none)

/-- `main.go` `Workflow`. -/
structure Workflow where
  Name : List Char
  Actions : List ActionInvocation
deriving DecidableEq

/-- The loop of `Workflow.executeActions` (`main.go` lines 229-234): run the
actions in order, returning the first error immediately. -/
def runActions (acts : List ActionInvocation) (env : List Char) (m : DockerMonitor) :
    DockerMonitor × Option GoError :=
  match acts with
  | [] => (m, none)
  | a :: rest =>
    match executeAction a env m with
    | (m2, none) => runActions rest env m2
    | (m2, some e) => (m2, some e)

/-- `main.go` `Workflow.executeActions` (lines 227-237). -/
def executeActions (w : Workflow) (m : DockerMonitor) : DockerMonitor × Option GoError :=
  runActions w.Actions w.Name m

/-- The workflow loop of `main` (`main.go` lines 273-279): every workflow
runs; an error is recorded and does not stop later workflows. -/
def runWorkflows (ws : List Workflow) (m : DockerMonitor) :
    DockerMonitor × List (Option GoError) :=
  match ws with
  | [] => (m, [])
  | w :: rest =>
    let p := executeActions w m
    let q := runWorkflows rest p.1
    (q.1, p.2 :: q.2)

/-- The guarded embedding of the final diagnostic access of `main.go` line
284, `d.DockerEnvironments[0].ContainersInfo[0].Image`: `none` is the error
branch the unguarded Go expression would panic on. -/
def finalDiagnostic (m : DockerMonitor) : Option (List Char) :=
  match m.DockerEnvironments with
  | [] => none
  | d :: _ =>
    match d.ContainersInfo with
    | [] => none
    | c :: _ => some c.Image

/-- The environment names of `main` (`main.go` line 240). -/
def mainEnvs : List (List Char) := ["Dev Environment".toList, "UAT Environment".toList]

/-- The three actions `main` assigns to each workflow (`main.go` lines
245-254), with the command results each invocation will observe. -/
def mainActions (rv rc ri : Except GoError (List Char)) : List ActionInvocation :=
  [{ kind := .version, cmdResult := rv },
   { kind := .containersStatus, cmdResult := rc },
   { kind := .localImages, cmdResult := ri }]

/-- The two workflows of `main` (`main.go` lines 259-268). -/
def mainWorkflows (dv dc di uv uc ui : Except GoError (List Char)) : List Workflow :=
  [{ Name := "Dev Environment".toList, Actions := mainActions dv dc di },
   { Name := "UAT Environment".toList, Actions := mainActions uv uc ui }]

/-- Render one JSON string value (no escaping; plain values need none). -/
def valRender (v : List Char) : List Char := quoteC :: v ++ [quoteC]

/-- Render one `"key":"value"` member. -/
def kvRender (k v : List Char) : List Char :=
  quoteC :: k ++ [quoteC, ':'] ++ valRender v

/-- Render the comma-separated member list. -/
def membersRender : List (List Char × List Char) → List Char
  | [] => []
  | [kv] => kvRender kv.1 kv.2
  | kv :: more => kvRender kv.1 kv.2 ++ ',' :: membersRender more

/-- Render a flat JSON object. -/
def objRender (fields : List (List Char × List Char)) : List Char :=
  lbraceC :: membersRender fields ++ [rbraceC]

/-- The key/value list of one container record, with docker's emitted key
names (whose first key `Command` is what the splitter's marker keys on). -/
def containerKVs (r : ContainerInfo) : List (List Char × List Char) :=
  [("Command".toList, r.Command), ("CreatedAt".toList, r.CreatedAt),
   ("ID".toList, r.ID), ("Image".toList, r.Image), ("Labels".toList, r.Labels),
   ("LocalVolumes".toList, r.LocalVolumes), ("Mounts".toList, r.Mounts),
   ("Names".toList, r.Names), ("Networks".toList, r.Networks),
   ("Ports".toList, r.Ports), ("RunningFor".toList, r.RunningFor),
   ("Size".toList, r.Size), ("State".toList, r.State), ("Status".toList, r.Status)]

/-- The fragment a well-formed record contributes after the split: the
record without its leading quote. -/
def fragRender (r : ContainerInfo) : List Char :=
  objRender (containerKVs r) ++ [quoteC, '\n']

/-- One well-formed quoted record line, as docker emits it. -/
def quotedRecord (r : ContainerInfo) : List Char := quoteC :: fragRender r

/-- A blob of concatenated well-formed quoted records. -/
def renderContainersBlob (rs : List ContainerInfo) : List Char :=
  (rs.map quotedRecord).flatten

/-- A *plain* value: representable inside this quoting scheme without
escapes, and free of the sentinel. -/
def PlainVal (v : List Char) : Prop :=
  (∀ c ∈ v, c ≠ quoteC ∧ c ≠ bsC ∧ 32 ≤ c.toNat) ∧ hasSub sentinelL v = false

instance (v : List Char) : Decidable (PlainVal v) := by
  unfold PlainVal
  infer_instance

/-- A well-formed container record: every field value is plain. -/
def PlainContainer (r : ContainerInfo) : Prop :=
  PlainVal r.Command ∧ PlainVal r.CreatedAt ∧ PlainVal r.ID ∧ PlainVal r.Image ∧
  PlainVal r.Labels ∧ PlainVal r.LocalVolumes ∧ PlainVal r.Mounts ∧ PlainVal r.Names ∧
  PlainVal r.Networks ∧ PlainVal r.Ports ∧ PlainVal r.RunningFor ∧ PlainVal r.Size ∧
  PlainVal r.State ∧ PlainVal r.Status

instance (r : ContainerInfo) : Decidable (PlainContainer r) := by
  unfold PlainContainer
  infer_instance

/-- No occurrence of `pat` in `a ++ b` starts strictly inside `a`
(`b` supplies the lookahead for occurrences that would cross the border). -/
def noHit (pat a b : List Char) : Prop :=
  ∀ a1 a2, a = a1 ++ a2 → a2 ≠ [] → isPre pat (a2 ++ b) = false

/-- The first character of `b` is `c1` or `c2` (so in particular `b ≠ []`). -/
def headIn (b : List Char) (c1 c2 : Char) : Prop :=
  match b with
  | [] => False
  | c :: _ => c = c1 ∨ c = c2

/-- A json member usable by the well-formedness argument: nonempty key free
of quotes and braces, value free of quotes. -/
def GoodKV (kv : List Char × List Char) : Prop :=
  kv.1 ≠ [] ∧ (∀ c ∈ kv.1, ¬ c = quoteC ∧ ¬ c = lbraceC) ∧ (∀ c ∈ kv.2, ¬ c = quoteC)

/-- The container record's members after the leading `Command` member. -/
def containerKVsTail (r : ContainerInfo) : List (List Char × List Char) :=
  [("CreatedAt".toList, r.CreatedAt), ("ID".toList, r.ID), ("Image".toList, r.Image),
   ("Labels".toList, r.Labels), ("LocalVolumes".toList, r.LocalVolumes),
   ("Mounts".toList, r.Mounts), ("Names".toList, r.Names),
   ("Networks".toList, r.Networks), ("Ports".toList, r.Ports),
   ("RunningFor".toList, r.RunningFor), ("Size".toList, r.Size),
   ("State".toList, r.State), ("Status".toList, r.Status)]

/-- The tail of one quoted record after its leading marker. -/
def recTail (r : ContainerInfo) : List Char :=
  valRender r.Command ++
    (',' :: (membersRender (containerKVsTail r) ++ [rbraceC, quoteC, '\n']))

/-- A value whose characters a JSON string can carry verbatim. -/
def CharsOk (v : List Char) : Prop :=
  ∀ c ∈ v, ¬ c = quoteC ∧ ¬ c = bsC ∧ 32 ≤ c.toNat

instance (v : List Char) : Decidable (CharsOk v) := by
  unfold CharsOk
  infer_instance

/-- The unconditional overwrite a probe applies to a matching entry. -/
def probeApplied (kind : ProbeKind) (out : List Char) (d : DockerEnvironment) : DockerEnvironment :=
  match kind with
  | .version => { d with DockerVersion := out }
  | .containersStatus =>
    let r := contScan (containersArray out)
    { d with StoppedContainers := r.stopped, RunningContainers := r.running,
             ContainersInfo := r.containerOutput }
  | .localImages =>
    let r := imgScan (imagesArray out)
    { d with TotalLocalDockerImages := r.totalImages, ImagesInfo := r.imageOutput }

/-- Monitor states reachable from `NewDockerMonitor envs` by successful probe
executions. -/
inductive ReachableState (envs : List (List Char)) : DockerMonitor → Prop where
  | base : ReachableState envs (NewDockerMonitor envs)
  | step (m m2 : DockerMonitor) (a : ActionInvocation) (env : List Char) :
      ReachableState envs m → executeAction a env m = (m2, none) → ReachableState envs m2

/-- The count/sequence coherence invariant of one environment entry. -/
def countsInvariant (d : DockerEnvironment) : Prop :=
  d.StoppedContainers + d.RunningContainers = d.ContainersInfo.length ∧
  d.TotalLocalDockerImages = d.ImagesInfo.length

/-- A concrete stopped container record. -/
def recExited : ContainerInfo :=
  { zeroContainer with
      Command := "bash".toList
      State := "exited".toList
      Image := "postgres".toList }

/-- A concrete running container record. -/
def recRunning : ContainerInfo :=
  { zeroContainer with
      State := "running".toList
      Image := "redis".toList }

/-- A truncated quoted record: the marker, one opening value quote, and one
value character, cut off mid-string. -/
def corruptMiddle : List Char := markerContainer ++ [quoteC, 'x']

/-- The fragment the splitter recovers from `corruptMiddle` (the truncated
record without its leading quote). -/
def corruptFrag : List Char := lbraceC :: "\x22Command\x22:\x22x".toList

/-- A three-record blob whose middle record is truncated. -/
def corruptBlob : List Char :=
  quotedRecord recExited ++ corruptMiddle ++ quotedRecord recRunning

/-- The spec's concrete scenario registry, names `["Dev", "UAT"]`. -/
def scenarioMonitor : DockerMonitor := NewDockerMonitor ["Dev".toList, "UAT".toList]

/-- The spec's concrete scenario blob: one exited and one running record. -/
def scenarioBlob : List Char := renderContainersBlob [recExited, recRunning]

/-! ## Lemmas: string primitives, the splitter round-trip, probe and
workflow behaviour, and the claims C1-C10 with their witnesses. -/

theorem isPre_self_append (p t : List Char) : isPre p (p ++ t) = true := by
  induction p with
  | nil => rfl
  | cons c cs ih => simp [isPre, ih]

theorem isPre_of_isPre_append (p a : List Char) (x : List Char) :
    p.length ≤ a.length → isPre p (a ++ x) = true → isPre p a = true := by
  induction p generalizing a with
  | nil => intro _ _; rfl
  | cons c cs ih =>
    intro hlen hpre
    cases a with
    | nil => simp at hlen
    | cons b bs =>
      simp [isPre] at hpre ⊢
      rcases hpre with ⟨hcb, hrest⟩
      exact ⟨hcb, ih bs (by simpa using hlen) hrest⟩

theorem hasSub_of_split (p a1 a2 v : List Char) :
    v = a1 ++ a2 → isPre p a2 = true → hasSub p v = true := by
  intro hv hpre
  subst hv
  induction a1 with
  | nil =>
    cases a2 with
    | nil => simpa [hasSub]
    | cons c t => simp [hasSub, hpre]
  | cons c t ih =>
    cases a2 with
    | nil => simp at ih ⊢; simp [hasSub, ih]
    | cons d u => simp [hasSub] at ih ⊢; right; exact ih

/-- `replaceAllFuel` ignores fuel beyond the input length. -/
theorem replaceAllFuel_irrel (o : Char) (os new : List Char) :
    ∀ f1 f2 s, s.length ≤ f1 → s.length ≤ f2 →
      replaceAllFuel o os new f1 s = replaceAllFuel o os new f2 s := by
  intro f1
  induction f1 with
  | zero =>
    intro f2 s h1 _
    have : s = [] := by cases s with
      | nil => rfl
      | cons c t => simp at h1
    subst this
    cases f2 <;> rfl
  | succ n ih =>
    intro f2 s h1 h2
    cases s with
    | nil => cases f2 <;> rfl
    | cons c rest =>
      cases f2 with
      | zero => simp at h2
      | succ m =>
        simp only [replaceAllFuel]
        by_cases hp : isPre (o :: os) (c :: rest) = true
        · simp only [hp, if_true]
          congr 1
          exact ih m _ (le_trans (by simpa using List.length_drop_le os.length rest)
              (Nat.succ_le_succ_iff.mp h1))
            (le_trans (by simpa using List.length_drop_le os.length rest)
              (Nat.succ_le_succ_iff.mp h2))
        · simp only [Bool.not_eq_true] at hp
          simp only [hp, if_false, Bool.false_eq_true]
          congr 1
          exact ih m rest (Nat.succ_le_succ_iff.mp h1) (Nat.succ_le_succ_iff.mp h2)

theorem replaceAllGo_nil (o : Char) (os new : List Char) :
    replaceAllGo [] (o :: os) new = [] := rfl

theorem replaceAllGo_cons_nomatch (o c : Char) (os new rest : List Char)
    (h : isPre (o :: os) (c :: rest) = false) :
    replaceAllGo (c :: rest) (o :: os) new = c :: replaceAllGo rest (o :: os) new := by
  simp [replaceAllGo, replaceAllFuel, h]

theorem replaceAllGo_match_start (o : Char) (os new t : List Char) :
    replaceAllGo ((o :: os) ++ t) (o :: os) new = new ++ replaceAllGo t (o :: os) new := by
  have hpre : isPre (o :: os) ((o :: os) ++ t) = true := isPre_self_append _ _
  have hdrop : (os ++ t).drop os.length = t := List.drop_left os t
  simp only [replaceAllGo, List.cons_append, List.length_cons, List.length_append]
  simp only [replaceAllFuel]
  rw [show (o :: (os ++ t)) = (o :: os) ++ t by simp] at *
  simp only [hpre, if_true, hdrop]
  congr 1
  exact replaceAllFuel_irrel o os new _ _ t (Nat.le_add_left _ _) (le_refl _)

theorem noHit_nil (pat b : List Char) : noHit pat [] b := by
  intro a1 a2 heq hne
  have hl := congrArg List.length heq
  simp only [List.length_nil, List.length_append] at hl
  have h2 : a2.length = 0 := by omega
  exact absurd (List.length_eq_zero.mp h2) hne

theorem noHit_cons_tail (pat b : List Char) (c : Char) (a : List Char)
    (h : noHit pat (c :: a) b) : noHit pat a b := by
  intro a1 a2 heq hne
  exact h (c :: a1) a2 (by simp [heq]) hne

theorem noHit_append (pat x y b : List Char)
    (hx : noHit pat x (y ++ b)) (hy : noHit pat y b) : noHit pat (x ++ y) b := by
  intro a1 a2 heq hne
  rcases List.append_eq_append_iff.mp heq.symm with ⟨a0, h1, h2⟩ | ⟨c0, h1, h2⟩
  · cases a0 with
    | nil =>
      simp only [List.nil_append] at h2
      exact hy [] a2 (by simp [h2]) hne
    | cons d ds =>
      have hco := hx a1 (d :: ds) h1 (by simp)
      rw [h2]
      simpa using hco
  · exact hy c0 a2 h2 hne

theorem noHit_headNe (p0 : Char) (pt seg b : List Char)
    (h : ∀ c ∈ seg, ¬ c = p0) : noHit (p0 :: pt) seg b := by
  intro a1 a2 heq hne
  cases a2 with
  | nil => exact absurd rfl hne
  | cons c t =>
    have hc : c ∈ seg := by
      rw [heq]
      simp
    have : ¬ p0 = c := fun hh => (h c hc) hh.symm
    simp [isPre, this]

theorem noHit_single (pat b : List Char) (c : Char)
    (h : isPre pat (c :: b) = false) : noHit pat [c] b := by
  intro a1 a2 heq hne
  have h2 : a2 = [c] := by
    cases a1 with
    | nil => simpa using heq.symm
    | cons d ds =>
      rcases a2 with _ | ⟨e, es⟩
      · exact absurd rfl hne
      · exfalso
        have hl := congrArg List.length heq
        simp only [List.length_cons, List.length_append, List.length_nil] at hl
        omega
  rw [h2]
  simpa using h

/-- Scanning a hit-free region: `replaceAllGo` copies it unchanged. -/
theorem replaceAllGo_scan (o : Char) (os new : List Char) :
    ∀ a b, noHit (o :: os) a b →
      replaceAllGo (a ++ b) (o :: os) new = a ++ replaceAllGo b (o :: os) new := by
  intro a
  induction a with
  | nil => intro b _; simp
  | cons c a2 ih =>
    intro b hnh
    have h0 : isPre (o :: os) (c :: (a2 ++ b)) = false := by
      have := hnh [] (c :: a2) rfl (by simp)
      simpa using this
    have step := replaceAllGo_cons_nomatch o c os new (a2 ++ b) h0
    calc replaceAllGo ((c :: a2) ++ b) (o :: os) new
        = c :: replaceAllGo (a2 ++ b) (o :: os) new := by simpa using step
      _ = c :: (a2 ++ replaceAllGo b (o :: os) new) := by
          rw [ih b (noHit_cons_tail _ _ _ _ hnh)]
      _ = (c :: a2) ++ replaceAllGo b (o :: os) new := by simp

/-- `splitFuel` ignores fuel beyond the input length. -/
theorem splitFuel_irrel (s0 : Char) (ss : List Char) :
    ∀ f1 f2 s, s.length ≤ f1 → s.length ≤ f2 →
      splitFuel s0 ss f1 s = splitFuel s0 ss f2 s := by
  intro f1
  induction f1 with
  | zero =>
    intro f2 s h1 _
    have hs : s = [] := by
      cases s with
      | nil => rfl
      | cons c t => simp at h1
    subst hs
    cases f2 <;> rfl
  | succ n ih =>
    intro f2 s h1 h2
    cases s with
    | nil => cases f2 <;> rfl
    | cons c rest =>
      cases f2 with
      | zero => simp at h2
      | succ m =>
        simp only [splitFuel]
        by_cases hp : isPre (s0 :: ss) (c :: rest) = true
        · simp only [hp, if_true]
          rw [ih m _ (le_trans (by simpa using List.length_drop_le ss.length rest)
              (Nat.succ_le_succ_iff.mp h1))
            (le_trans (by simpa using List.length_drop_le ss.length rest)
              (Nat.succ_le_succ_iff.mp h2))]
        · simp only [Bool.not_eq_true] at hp
          simp only [hp, if_false, Bool.false_eq_true]
          rw [ih m rest (Nat.succ_le_succ_iff.mp h1) (Nat.succ_le_succ_iff.mp h2)]

theorem splitGo_nil (s0 : Char) (ss : List Char) : splitGo [] (s0 :: ss) = [[]] := rfl

theorem splitGo_cons_nomatch (s0 c : Char) (ss rest : List Char)
    (h : isPre (s0 :: ss) (c :: rest) = false) :
    splitGo (c :: rest) (s0 :: ss) =
      match splitGo rest (s0 :: ss) with
      | [] => [[c]]
      | t :: ts => (c :: t) :: ts := by
  simp [splitGo, splitFuel, h]

theorem splitGo_ne_nil (sep s : List Char) (hsep : sep ≠ []) : splitGo s sep ≠ [] := by
  cases sep with
  | nil => exact absurd rfl hsep
  | cons s0 ss =>
    show splitFuel s0 ss s.length s ≠ []
    cases s with
    | nil => simp [splitFuel]
    | cons c rest =>
      simp only [List.length_cons, splitFuel]
      by_cases hp : isPre (s0 :: ss) (c :: rest) = true
      · simp [hp]
      · simp only [Bool.not_eq_true] at hp
        simp only [hp, if_false, Bool.false_eq_true]
        cases splitFuel s0 ss rest.length rest <;> simp

theorem splitGo_match_start (s0 : Char) (ss t : List Char) :
    splitGo ((s0 :: ss) ++ t) (s0 :: ss) = [] :: splitGo t (s0 :: ss) := by
  have hpre : isPre (s0 :: ss) ((s0 :: ss) ++ t) = true := isPre_self_append _ _
  have hdrop : (ss ++ t).drop ss.length = t := List.drop_left ss t
  show splitFuel s0 ss ((s0 :: ss) ++ t).length ((s0 :: ss) ++ t) = [] :: splitFuel s0 ss t.length t
  rw [show ((s0 :: ss) ++ t) = s0 :: (ss ++ t) by simp]
  simp only [List.length_cons, splitFuel]
  rw [show (s0 :: (ss ++ t)) = (s0 :: ss) ++ t by simp, hpre]
  simp only [if_true, hdrop]
  rw [splitFuel_irrel s0 ss _ _ t (by simp) (le_refl _)]

/-- Scanning a hit-free region: `splitGo` accumulates it onto the head
fragment. -/
theorem splitGo_scan (s0 : Char) (ss : List Char) :
    ∀ a b, noHit (s0 :: ss) a b →
      splitGo (a ++ b) (s0 :: ss) =
        (a ++ (splitGo b (s0 :: ss)).headD []) :: (splitGo b (s0 :: ss)).tail := by
  intro a
  induction a with
  | nil =>
    intro b _
    rcases hsp : splitGo b (s0 :: ss) with _ | ⟨t, ts⟩
    · exact absurd hsp (splitGo_ne_nil _ _ (by simp))
    · simp [hsp]
  | cons c a2 ih =>
    intro b hnh
    have h0 : isPre (s0 :: ss) (c :: (a2 ++ b)) = false := by
      have := hnh [] (c :: a2) rfl (by simp)
      simpa using this
    have step := splitGo_cons_nomatch s0 c ss (a2 ++ b) h0
    have ihb := ih b (noHit_cons_tail _ _ _ _ hnh)
    calc splitGo ((c :: a2) ++ b) (s0 :: ss)
        = splitGo (c :: (a2 ++ b)) (s0 :: ss) := by simp
      _ = ((c :: a2) ++ (splitGo b (s0 :: ss)).headD []) :: (splitGo b (s0 :: ss)).tail := by
          rw [step, ihb]
          simp

theorem isPre_neq (p0 c : Char) (pt s : List Char) (h : ¬ p0 = c) :
    isPre (p0 :: pt) (c :: s) = false := by
  simp [isPre, h]

theorem isPre_eq_head (c : Char) (pt s : List Char) :
    isPre (c :: pt) (c :: s) = isPre pt s := by
  simp [isPre]

theorem noHit_cons_of (pat b : List Char) (c : Char) (y : List Char)
    (h1 : isPre pat (c :: (y ++ b)) = false) (h2 : noHit pat y b) :
    noHit pat (c :: y) b := by
  have h := noHit_append pat [c] y b (noHit_single _ _ _ (by simpa using h1)) h2
  simpa using h

theorem markerContainer_eq :
    markerContainer = quoteC :: lbraceC :: quoteC :: 'C' :: ("ommand".toList ++ [quoteC, ':']) := by
  decide

/-- No container-marker occurrence starts inside a rendered value whose
following context begins with `,` or `}`. -/
theorem noHit_mc_val (v b : List Char)
    (hv : ∀ c ∈ v, ¬ c = quoteC)
    (hb : headIn b ',' rbraceC) :
    noHit markerContainer (valRender v) b := by
  cases b with
  | nil => cases hb
  | cons h0 b2 =>
    have hCne : ¬ 'C' = h0 := by
      rcases hb with h | h <;> subst h <;> decide
    show noHit markerContainer (quoteC :: (v ++ [quoteC])) (h0 :: b2)
    apply noHit_cons_of
    · rw [markerContainer_eq, isPre_eq_head]
      cases v with
      | nil =>
        simp only [List.nil_append, List.cons_append]
        exact isPre_neq _ _ _ _ (by decide)
      | cons c0 v2 =>
        simp only [List.cons_append, List.append_assoc]
        by_cases hc0 : lbraceC = c0
        · rw [← hc0, isPre_eq_head]
          cases v2 with
          | nil =>
            simp only [List.nil_append, List.cons_append]
            rw [isPre_eq_head]
            exact isPre_neq _ _ _ _ hCne
          | cons c1 v3 =>
            simp only [List.cons_append, List.append_assoc]
            exact isPre_neq _ _ _ _ (fun hh => hv c1 (by simp) hh.symm)
        · exact isPre_neq _ _ _ _ hc0
    · apply noHit_append markerContainer v [quoteC] (h0 :: b2)
      · rw [markerContainer_eq]
        exact noHit_headNe _ _ _ _ hv
      · apply noHit_single
        rw [markerContainer_eq, isPre_eq_head]
        rcases hb with h | h <;> subst h
        · exact isPre_neq _ _ _ _ (by decide)
        · exact isPre_neq _ _ _ _ (by decide)

/-- No container-marker occurrence starts inside `,"key":"value"` when the
key avoids quote/brace characters and the following context begins with `,`
or `}`. -/
theorem noHit_mc_kvtail (k v b : List Char)
    (hkne : k ≠ []) (hk : ∀ c ∈ k, ¬ c = quoteC ∧ ¬ c = lbraceC)
    (hv : ∀ c ∈ v, ¬ c = quoteC)
    (hb : headIn b ',' rbraceC) :
    noHit markerContainer (',' :: kvRender k v) b := by
  apply noHit_cons_of
  · rw [markerContainer_eq]
    exact isPre_neq _ _ _ _ (by decide)
  · show noHit markerContainer (quoteC :: (k ++ [quoteC, ':'] ++ valRender v)) b
    apply noHit_cons_of
    · rw [markerContainer_eq, isPre_eq_head]
      cases k with
      | nil => exact absurd rfl hkne
      | cons k0 k2 =>
        simp only [List.cons_append, List.append_assoc]
        exact isPre_neq _ _ _ _ (fun hh => (hk k0 (by simp)).2 hh.symm)
    · have hassoc : k ++ [quoteC, ':'] ++ valRender v = k ++ ([quoteC, ':'] ++ valRender v) := by
        simp [List.append_assoc]
      rw [hassoc]
      apply noHit_append markerContainer k ([quoteC, ':'] ++ valRender v) b
      · rw [markerContainer_eq]
        exact noHit_headNe _ _ _ _ (fun c hc => (hk c hc).1)
      · show noHit markerContainer (quoteC :: (':' :: valRender v)) b
        apply noHit_cons_of
        · rw [markerContainer_eq, isPre_eq_head]
          simp only [List.cons_append]
          exact isPre_neq _ _ _ _ (by decide)
        · apply noHit_cons_of
          · rw [markerContainer_eq]
            exact isPre_neq _ _ _ _ (by decide)
          · exact noHit_mc_val v b hv hb

/-- No container-marker occurrence starts inside the record closer `}"⏎`. -/
theorem noHit_mc_closer (b : List Char) :
    noHit markerContainer [rbraceC, quoteC, '\n'] b := by
  apply noHit_cons_of
  · rw [markerContainer_eq]
    exact isPre_neq _ _ _ _ (by decide)
  · apply noHit_cons_of
    · rw [markerContainer_eq, isPre_eq_head]
      simp only [List.cons_append]
      exact isPre_neq _ _ _ _ (by decide)
    · apply noHit_single
      rw [markerContainer_eq]
      exact isPre_neq _ _ _ _ (by decide)

/-- No container-marker occurrence starts inside `,members}"⏎`. -/
theorem noHit_mc_memtail :
    ∀ (fields : List (List Char × List Char)) (b : List Char),
      (∀ kv ∈ fields, GoodKV kv) → fields ≠ [] →
      noHit markerContainer (',' :: (membersRender fields ++ [rbraceC, quoteC, '\n'])) b := by
  intro fields
  induction fields with
  | nil => intro b _ hne; exact absurd rfl hne
  | cons kv more ih =>
    intro b hgood _
    rcases hkv : more with _ | ⟨kv2, more2⟩
    all_goals subst hkv
    · have hg := hgood kv (by simp)
      have heq : ',' :: (membersRender [kv] ++ [rbraceC, quoteC, '\n']) =
          (',' :: kvRender kv.1 kv.2) ++ [rbraceC, quoteC, '\n'] := by
        simp [membersRender]
      rw [heq]
      apply noHit_append
      · exact noHit_mc_kvtail kv.1 kv.2 _ hg.1 hg.2.1 hg.2.2 (by simp [headIn])
      · exact noHit_mc_closer b
    · have hg := hgood kv (by simp)
      have heq : ',' :: (membersRender (kv :: kv2 :: more2) ++ [rbraceC, quoteC, '\n']) =
          (',' :: kvRender kv.1 kv.2) ++
            (',' :: (membersRender (kv2 :: more2) ++ [rbraceC, quoteC, '\n'])) := by
        simp [membersRender]
      rw [heq]
      apply noHit_append
      · exact noHit_mc_kvtail kv.1 kv.2 _ hg.1 hg.2.1 hg.2.2 (by simp [headIn])
      · exact ih b (fun kv3 h3 => hgood kv3 (by simp [h3])) (by simp)

theorem containerKVs_eq (r : ContainerInfo) :
    containerKVs r = ("Command".toList, r.Command) :: containerKVsTail r := rfl

theorem quotedRecord_decomp (r : ContainerInfo) :
    quotedRecord r = markerContainer ++ recTail r := by
  have h1 : markerContainer = [quoteC, lbraceC, quoteC] ++ "Command".toList ++ [quoteC, ':'] := by
    decide
  rw [h1]
  simp [quotedRecord, fragRender, objRender, containerKVs_eq, containerKVsTail,
    membersRender, kvRender, valRender, recTail, List.append_assoc]

theorem goodKV_mk (k v : List Char) (h1 : k ≠ [])
    (h2 : ∀ c ∈ k, ¬ c = quoteC ∧ ¬ c = lbraceC) (h3 : ∀ c ∈ v, ¬ c = quoteC) :
    GoodKV (k, v) := ⟨h1, h2, h3⟩

theorem plainVal_noQuote (v : List Char) (h : PlainVal v) : ∀ c ∈ v, ¬ c = quoteC :=
  fun c hc => (h.1 c hc).1

theorem goodKV_of_plain (r : ContainerInfo) (h : PlainContainer r) :
    ∀ kv ∈ containerKVsTail r, GoodKV kv := by
  intro kv hkv
  simp only [containerKVsTail, List.mem_cons, List.not_mem_nil, or_false] at hkv
  rcases hkv with rfl | rfl | rfl | rfl | rfl | rfl | rfl | rfl | rfl | rfl | rfl | rfl | rfl
  · exact goodKV_mk _ _ (by decide) (by decide) (plainVal_noQuote _ h.2.1)
  · exact goodKV_mk _ _ (by decide) (by decide) (plainVal_noQuote _ h.2.2.1)
  · exact goodKV_mk _ _ (by decide) (by decide) (plainVal_noQuote _ h.2.2.2.1)
  · exact goodKV_mk _ _ (by decide) (by decide) (plainVal_noQuote _ h.2.2.2.2.1)
  · exact goodKV_mk _ _ (by decide) (by decide) (plainVal_noQuote _ h.2.2.2.2.2.1)
  · exact goodKV_mk _ _ (by decide) (by decide) (plainVal_noQuote _ h.2.2.2.2.2.2.1)
  · exact goodKV_mk _ _ (by decide) (by decide) (plainVal_noQuote _ h.2.2.2.2.2.2.2.1)
  · exact goodKV_mk _ _ (by decide) (by decide) (plainVal_noQuote _ h.2.2.2.2.2.2.2.2.1)
  · exact goodKV_mk _ _ (by decide) (by decide) (plainVal_noQuote _ h.2.2.2.2.2.2.2.2.2.1)
  · exact goodKV_mk _ _ (by decide) (by decide) (plainVal_noQuote _ h.2.2.2.2.2.2.2.2.2.2.1)
  · exact goodKV_mk _ _ (by decide) (by decide) (plainVal_noQuote _ h.2.2.2.2.2.2.2.2.2.2.2.1)
  · exact goodKV_mk _ _ (by decide) (by decide) (plainVal_noQuote _ h.2.2.2.2.2.2.2.2.2.2.2.2.1)
  · exact goodKV_mk _ _ (by decide) (by decide) (plainVal_noQuote _ h.2.2.2.2.2.2.2.2.2.2.2.2.2)

theorem noHit_recTail (r : ContainerInfo) (h : PlainContainer r) (b : List Char) :
    noHit markerContainer (recTail r) b := by
  apply noHit_append
  · apply noHit_mc_val
    · exact plainVal_noQuote _ h.1
    · simp [headIn]
  · exact noHit_mc_memtail (containerKVsTail r) b (goodKV_of_plain r h) (by simp [containerKVsTail])

/-- `strings.ReplaceAll` on a blob of well-formed quoted records inserts the
sentinel exactly once, before each record. -/
theorem replace_renderBlob :
    ∀ rs : List ContainerInfo, (∀ r ∈ rs, PlainContainer r) →
      replaceAllGo (renderContainersBlob rs) markerContainer (sentinelL ++ markerContainer) =
        (rs.map (fun r => sentinelL ++ quotedRecord r)).flatten := by
  intro rs
  induction rs with
  | nil =>
    intro _
    rw [markerContainer_eq]
    simp [renderContainersBlob, replaceAllGo_nil]
  | cons r rest ih =>
    intro hp
    have hpr := hp r (by simp)
    have ih2 := ih (fun r2 h2 => hp r2 (by simp [h2]))
    have hblob : renderContainersBlob (r :: rest) = quotedRecord r ++ renderContainersBlob rest := by
      simp [renderContainersBlob]
    have hnh : noHit markerContainer (recTail r) (renderContainersBlob rest) :=
      noHit_recTail r hpr _
    rw [markerContainer_eq] at hnh ih2 ⊢
    rw [hblob, quotedRecord_decomp r, markerContainer_eq, List.append_assoc,
      replaceAllGo_match_start, replaceAllGo_scan _ _ _ _ _ hnh, ih2]
    simp [quotedRecord_decomp r, markerContainer_eq, List.append_assoc]

theorem sepL_eq : sepL = '<' :: '=' :: '=' :: '=' :: '>' :: [quoteC] := by decide

theorem sentinelL_eq : sentinelL = '<' :: '=' :: '=' :: '=' :: ['>'] := by decide

theorem sepL_sentinel : sepL = sentinelL ++ [quoteC] := by decide

/-- No separator occurrence starts inside a rendered value followed by its
closing quote, as plain values do not contain the sentinel. -/
theorem noHit_sep_val (v b : List Char) (hsub : hasSub sentinelL v = false) :
    noHit sepL v (quoteC :: b) := by
  intro a1 a2 heq hne
  rcases a2 with _ | ⟨c1, _ | ⟨c2, _ | ⟨c3, _ | ⟨c4, _ | ⟨c5, t1⟩⟩⟩⟩⟩
  · exact absurd rfl hne
  · simp [sepL_eq, isPre, show ¬ ('=' = quoteC) by decide]
  · simp [sepL_eq, isPre, show ¬ ('=' = quoteC) by decide]
  · simp [sepL_eq, isPre, show ¬ ('=' = quoteC) by decide]
  · simp [sepL_eq, isPre, show ¬ ('>' = quoteC) by decide]
  · by_contra hcon
    rw [Bool.not_eq_false] at hcon
    rw [sepL_eq] at hcon
    simp only [List.cons_append, isPre] at hcon
    have h5 : isPre sentinelL (c1 :: c2 :: c3 :: c4 :: c5 :: t1) = true := by
      rw [sentinelL_eq]
      simp only [isPre]
      split_ifs at hcon ⊢ <;> simp_all [isPre]
    exact absurd (hasSub_of_split sentinelL a1 _ v heq h5) (by simp [hsub])

/-- No separator occurrence starts inside a `"key":"value"` member. -/
theorem noHit_sep_kv (k v b : List Char)
    (hk : ∀ c ∈ k, ¬ c = '<')
    (hv : hasSub sentinelL v = false) :
    noHit sepL (kvRender k v) b := by
  show noHit sepL (quoteC :: (k ++ [quoteC, ':'] ++ valRender v)) b
  apply noHit_cons_of
  · rw [sepL_eq]; exact isPre_neq _ _ _ _ (by decide)
  · have hassoc : k ++ [quoteC, ':'] ++ valRender v = k ++ ([quoteC, ':'] ++ valRender v) := by
      simp [List.append_assoc]
    rw [hassoc]
    apply noHit_append
    · rw [sepL_eq]; exact noHit_headNe _ _ _ _ hk
    · show noHit sepL (quoteC :: (':' :: valRender v)) b
      apply noHit_cons_of
      · rw [sepL_eq]
        simp only [List.cons_append]
        exact isPre_neq _ _ _ _ (by decide)
      · apply noHit_cons_of
        · rw [sepL_eq]; exact isPre_neq _ _ _ _ (by decide)
        · show noHit sepL (quoteC :: (v ++ [quoteC])) b
          apply noHit_cons_of
          · rw [sepL_eq]; exact isPre_neq _ _ _ _ (by decide)
          · apply noHit_append
            · exact noHit_sep_val v ([] ++ b) hv
            · apply noHit_single
              rw [sepL_eq]; exact isPre_neq _ _ _ _ (by decide)

/-- No separator occurrence starts inside a rendered member list. -/
theorem noHit_sep_members :
    ∀ (fields : List (List Char × List Char)) (b : List Char),
      (∀ kv ∈ fields, (∀ c ∈ kv.1, ¬ c = '<') ∧ hasSub sentinelL kv.2 = false) →
      noHit sepL (membersRender fields) b := by
  intro fields
  induction fields with
  | nil => intro b _; exact noHit_nil _ _
  | cons kv more ih =>
    intro b hgood
    have hg := hgood kv (by simp)
    rcases hmore : more with _ | ⟨kv2, more2⟩
    all_goals subst hmore
    · exact noHit_sep_kv kv.1 kv.2 b hg.1 hg.2
    · show noHit sepL (kvRender kv.1 kv.2 ++ (',' :: membersRender (kv2 :: more2))) b
      apply noHit_append
      · exact noHit_sep_kv kv.1 kv.2 _ hg.1 hg.2
      · apply noHit_cons_of
        · rw [sepL_eq]; exact isPre_neq _ _ _ _ (by decide)
        · exact ih b (fun kv3 h3 => hgood kv3 (by simp [h3]))

theorem sepKey_mk (k v : List Char) (h1 : ∀ c ∈ k, ¬ c = '<')
    (h2 : hasSub sentinelL v = false) :
    (∀ c ∈ (k, v).1, ¬ c = '<') ∧ hasSub sentinelL (k, v).2 = false := ⟨h1, h2⟩

theorem sepGood_of_plain (r : ContainerInfo) (h : PlainContainer r) :
    ∀ kv ∈ containerKVs r, (∀ c ∈ kv.1, ¬ c = '<') ∧ hasSub sentinelL kv.2 = false := by
  intro kv hkv
  simp only [containerKVs, List.mem_cons, List.not_mem_nil, or_false] at hkv
  rcases hkv with rfl | rfl | rfl | rfl | rfl | rfl | rfl | rfl | rfl | rfl | rfl | rfl | rfl | rfl
  · exact sepKey_mk _ _ (by decide) h.1.2
  · exact sepKey_mk _ _ (by decide) h.2.1.2
  · exact sepKey_mk _ _ (by decide) h.2.2.1.2
  · exact sepKey_mk _ _ (by decide) h.2.2.2.1.2
  · exact sepKey_mk _ _ (by decide) h.2.2.2.2.1.2
  · exact sepKey_mk _ _ (by decide) h.2.2.2.2.2.1.2
  · exact sepKey_mk _ _ (by decide) h.2.2.2.2.2.2.1.2
  · exact sepKey_mk _ _ (by decide) h.2.2.2.2.2.2.2.1.2
  · exact sepKey_mk _ _ (by decide) h.2.2.2.2.2.2.2.2.1.2
  · exact sepKey_mk _ _ (by decide) h.2.2.2.2.2.2.2.2.2.1.2
  · exact sepKey_mk _ _ (by decide) h.2.2.2.2.2.2.2.2.2.2.1.2
  · exact sepKey_mk _ _ (by decide) h.2.2.2.2.2.2.2.2.2.2.2.1.2
  · exact sepKey_mk _ _ (by decide) h.2.2.2.2.2.2.2.2.2.2.2.2.1.2
  · exact sepKey_mk _ _ (by decide) h.2.2.2.2.2.2.2.2.2.2.2.2.2.2

/-- No separator occurrence starts inside a well-formed fragment. -/
theorem noHit_sep_frag (r : ContainerInfo) (h : PlainContainer r) (b : List Char) :
    noHit sepL (fragRender r) b := by
  have hshape : fragRender r =
      lbraceC :: (membersRender (containerKVs r) ++ [rbraceC, quoteC, '\n']) := by
    simp [fragRender, objRender]
  rw [hshape]
  apply noHit_cons_of
  · rw [sepL_eq]; exact isPre_neq _ _ _ _ (by decide)
  · apply noHit_append
    · exact noHit_sep_members (containerKVs r) _ (sepGood_of_plain r h)
    · rw [sepL_eq]
      exact noHit_headNe _ _ _ _ (by decide)

/-- Splitting the sentinel-adjusted blob recovers the fragments: one empty
leading fragment, then one fragment per record. -/
theorem split_fragBlob :
    ∀ rs : List ContainerInfo, (∀ r ∈ rs, PlainContainer r) →
      splitGo ((rs.map (fun r => sepL ++ fragRender r)).flatten) sepL =
        [] :: rs.map fragRender := by
  intro rs
  induction rs with
  | nil =>
    intro _
    rw [sepL_eq]
    simp [splitGo_nil]
  | cons r rest ih =>
    intro hp
    have hpr := hp r (by simp)
    have ih2 := ih (fun r2 h2 => hp r2 (by simp [h2]))
    have hnh : noHit sepL (fragRender r) ((rest.map (fun r => sepL ++ fragRender r)).flatten) :=
      noHit_sep_frag r hpr _
    rw [sepL_eq] at hnh ih2 ⊢
    have hflat : ((r :: rest).map (fun r =>
        ('<' :: '=' :: '=' :: '=' :: '>' :: [quoteC]) ++ fragRender r)).flatten =
        ('<' :: '=' :: '=' :: '=' :: '>' :: [quoteC]) ++
          (fragRender r ++ (rest.map (fun r =>
            ('<' :: '=' :: '=' :: '=' :: '>' :: [quoteC]) ++ fragRender r)).flatten) := by
      simp [List.append_assoc]
    rw [hflat, splitGo_match_start, splitGo_scan _ _ _ _ hnh, ih2]
    simp

/-- The container splitter on a blob of well-formed records: fragment 0 is
empty, fragment `i + 1` is record `i` without its leading quote. -/
theorem containersArray_render (rs : List ContainerInfo)
    (h : ∀ r ∈ rs, PlainContainer r) :
    containersArray (renderContainersBlob rs) = [] :: rs.map fragRender := by
  show splitGo (replaceAllGo (renderContainersBlob rs) markerContainer
    (sentinelL ++ markerContainer)) sepL = [] :: rs.map fragRender
  rw [replace_renderBlob rs h]
  have hmap : (rs.map (fun r => sentinelL ++ quotedRecord r)) =
      (rs.map (fun r => sepL ++ fragRender r)) := by
    apply List.map_congr_left
    intro r _
    rw [sepL_sentinel]
    simp [quotedRecord]
  rw [hmap, split_fragBlob rs h]

theorem trimSpaceGo_frag (x : List Char) :
    trimSpaceGo (lbraceC :: (x ++ [quoteC, '\n'])) = lbraceC :: (x ++ [quoteC]) := by
  have h1 : goIsSpace lbraceC = false := by decide
  have h2 : goIsSpace '\n' = true := by decide
  have h3 : goIsSpace quoteC = false := by decide
  simp [trimSpaceGo, List.dropWhile_cons, h1, h2, h3, List.reverse_append]

theorem trimSuffix_quote (x : List Char) : TrimSuffix (x ++ [quoteC]) [quoteC] = x := by
  have h1 : hasSuffixGo (x ++ [quoteC]) [quoteC] = true := by
    simp [hasSuffixGo, List.reverse_append, isPre]
  simp only [TrimSuffix, h1, if_true, List.length_append, List.length_cons, List.length_nil]
  have h2 : x.length + 1 - 1 = x.length := by omega
  rw [h2, List.take_left]

theorem parseJstr_plain (v rest : List Char) (h : CharsOk v) :
    ∀ fuel, v.length + 1 ≤ fuel → parseJstr fuel (v ++ quoteC :: rest) = some (v, rest) := by
  induction v with
  | nil =>
    intro fuel hf
    cases fuel with
    | zero => omega
    | succ f =>
      rw [List.nil_append, parseJstr.eq_def]
      simp
  | cons c v2 ih =>
    intro fuel hf
    cases fuel with
    | zero => simp at hf
    | succ f =>
      obtain ⟨h1, h2, h3⟩ := h c (by simp)
      have ih2 := ih (fun c2 hc2 => h c2 (by simp [hc2])) f
        (by simp only [List.length_cons] at hf; omega)
      rw [List.cons_append, parseJstr.eq_def]
      simp [h1, h2, Nat.not_lt.mpr h3, ih2]

theorem skipWs_cons (c : Char) (s : List Char) (h : jsonWs c = false) :
    skipWs (c :: s) = c :: s := by
  simp [skipWs, List.dropWhile_cons, h]

theorem parseJval_strVal (v tail : List Char) (f depth : Nat) (h : CharsOk v) :
    parseJval (f + 1) depth (quoteC :: (v ++ quoteC :: tail)) = some (Jval.str v, tail) := by
  have w1 : jsonWs quoteC = false := by decide
  rw [parseJval.eq_def]
  simp [skipWs_cons _ _ w1]
  rw [parseJstr_plain v tail h (v.length + (tail.length + 1) + 1) (by omega)]

theorem parseJmembers_render :
    ∀ (fields : List (List Char × List Char)) (fuel depth : Nat) (rest : List Char),
      fields ≠ [] →
      (∀ kv ∈ fields, CharsOk kv.1 ∧ CharsOk kv.2) →
      fields.length + 1 ≤ fuel →
      parseJmembers fuel depth (membersRender fields ++ rbraceC :: rest)
        = some (fields.map (fun kv => (kv.1, Jval.str kv.2)), rest) := by
  intro fields
  induction fields with
  | nil => intro fuel depth rest hne _ _; exact absurd rfl hne
  | cons kv more ih =>
    intro fuel depth rest hne2 hgood hlen
    obtain ⟨k, v⟩ := kv
    have hk : CharsOk k := (hgood (k, v) (by simp)).1
    have hv : CharsOk v := (hgood (k, v) (by simp)).2
    have w1 : jsonWs quoteC = false := by decide
    have w2 : jsonWs ':' = false := by decide
    have w3 : jsonWs rbraceC = false := by decide
    have w4 : jsonWs ',' = false := by decide
    have pk : ∀ rs : List Char,
        parseJstr ((k ++ quoteC :: rs).length + 1) (k ++ quoteC :: rs) = some (k, rs) :=
      fun rs => parseJstr_plain k rs hk _
        (by simp only [List.length_append, List.length_cons]; omega)
    cases fuel with
    | zero => simp at hlen
    | succ f =>
      have hf1 : 1 ≤ f := by
        simp only [List.length_cons] at hlen
        omega
      obtain ⟨g, rfl⟩ : ∃ g, f = g + 1 := ⟨f - 1, by omega⟩
      have pv : ∀ rs : List Char,
          parseJval (g + 1) depth (quoteC :: (v ++ quoteC :: rs)) = some (Jval.str v, rs) :=
        fun rs => parseJval_strVal v rs g depth hv
      rcases hmore : more with _ | ⟨kv2, more2⟩
      all_goals subst hmore
      · have hs : membersRender [(k, v)] ++ rbraceC :: rest =
            quoteC :: (k ++ quoteC :: ':' :: (quoteC :: (v ++ quoteC :: rbraceC :: rest))) := by
          simp [membersRender, kvRender, valRender]
        rw [hs, parseJmembers.eq_def]
        simp only [skipWs_cons, w1, w2, w3, pk, pv]
        simp [show ¬ (rbraceC = ',') by decide]
      · have hs : membersRender ((k, v) :: kv2 :: more2) ++ rbraceC :: rest =
            quoteC :: (k ++ quoteC :: ':' :: (quoteC :: (v ++ quoteC :: ',' ::
              (membersRender (kv2 :: more2) ++ rbraceC :: rest)))) := by
          simp [membersRender, kvRender, valRender]
        rw [hs, parseJmembers.eq_def]
        simp only [skipWs_cons, w1, w2, w4, pk, pv]
        have ih2 := ih (g + 1) depth rest (by simp) (fun kv3 h3 => hgood kv3 (by simp [h3]))
          (by simp only [List.length_cons] at hlen ⊢; omega)
        simp [ih2]

theorem membersRender_head (kv : List Char × List Char)
    (more : List (List Char × List Char)) :
    ∃ t, membersRender (kv :: more) = quoteC :: t := by
  cases more with
  | nil => exact ⟨_, rfl⟩
  | cons kv2 more2 => exact ⟨_, rfl⟩

theorem membersRender_len :
    ∀ fields : List (List Char × List Char), fields.length ≤ (membersRender fields).length := by
  intro fields
  induction fields with
  | nil => simp [membersRender]
  | cons kv more ih =>
    cases more with
    | nil => simp [membersRender, kvRender]
    | cons kv2 more2 =>
      have : membersRender (kv :: kv2 :: more2) =
          kvRender kv.1 kv.2 ++ ',' :: membersRender (kv2 :: more2) := rfl
      rw [this]
      simp only [List.length_cons, List.length_append, kvRender]
      simp at ih ⊢
      omega

theorem parseJval_objRender (fields : List (List Char × List Char))
    (hne : fields ≠ []) (hgood : ∀ kv ∈ fields, CharsOk kv.1 ∧ CharsOk kv.2)
    (g depth : Nat) (tail : List Char)
    (hfuel : fields.length + 1 ≤ g) (hdepth : depth < maxNestingDepth) :
    parseJval (g + 1) depth (objRender fields ++ tail)
      = some (Jval.obj (fields.map (fun kv => (kv.1, Jval.str kv.2))), tail) := by
  obtain ⟨kv1, more, rfl⟩ : ∃ kv1 more, fields = kv1 :: more := by
    cases fields with
    | nil => exact absurd rfl hne
    | cons kv1 more => exact ⟨kv1, more, rfl⟩
  obtain ⟨t, ht⟩ := membersRender_head kv1 more
  have hobj : objRender (kv1 :: more) ++ tail =
      lbraceC :: (quoteC :: (t ++ rbraceC :: tail)) := by
    simp [objRender, ht]
  have wl : jsonWs lbraceC = false := by decide
  have w1 : jsonWs quoteC = false := by decide
  have hmem : quoteC :: (t ++ rbraceC :: tail) =
      membersRender (kv1 :: more) ++ rbraceC :: tail := by
    simp [ht]
  have hpm := parseJmembers_render (kv1 :: more) g (depth + 1) tail hne hgood hfuel
  rw [← hmem] at hpm
  have hd : ¬ maxNestingDepth < depth + 1 := by omega
  rw [hobj, parseJval.eq_def]
  simp only [skipWs_cons, wl, w1, hpm]
  simp [show ¬ (lbraceC = quoteC) by decide, show ¬ (quoteC = rbraceC) by decide, hd, hpm]

theorem parseJsonDoc_objRender (fields : List (List Char × List Char))
    (hne : fields ≠ []) (hgood : ∀ kv ∈ fields, CharsOk kv.1 ∧ CharsOk kv.2) :
    parseJsonDoc (objRender fields)
      = some (Jval.obj (fields.map (fun kv => (kv.1, Jval.str kv.2)))) := by
  have hfuel : fields.length + 1 ≤ (objRender fields).length := by
    have hl := membersRender_len fields
    simp only [objRender, List.length_cons, List.length_append, List.length_nil]
    omega
  have hv := parseJval_objRender fields hne hgood (objRender fields).length 0 []
    hfuel (by decide)
  rw [List.append_nil] at hv
  show (match parseJval ((objRender fields).length + 1) 0 (objRender fields) with
    | none => none
    | some (v, rest) => if skipWs rest = [] then some v else none) = _
  rw [hv]
  simp [skipWs]

theorem applyCF_command (c : ContainerInfo) (v : List Char) :
    applyContainerField c ("Command".toList, v) = { c with Command := v } := by
  have h : lowerAscii "Command".toList = "command".toList := by decide
  simp only [applyContainerField, h]
  simp +decide

theorem applyCF_createdAt (c : ContainerInfo) (v : List Char) :
    applyContainerField c ("CreatedAt".toList, v) = { c with CreatedAt := v } := by
  have h : lowerAscii "CreatedAt".toList = "createdat".toList := by decide
  simp only [applyContainerField, h]
  simp +decide

theorem applyCF_id (c : ContainerInfo) (v : List Char) :
    applyContainerField c ("ID".toList, v) = { c with ID := v } := by
  have h : lowerAscii "ID".toList = "id".toList := by decide
  simp only [applyContainerField, h]
  simp +decide

theorem applyCF_image (c : ContainerInfo) (v : List Char) :
    applyContainerField c ("Image".toList, v) = { c with Image := v } := by
  have h : lowerAscii "Image".toList = "image".toList := by decide
  simp only [applyContainerField, h]
  simp +decide

theorem applyCF_labels (c : ContainerInfo) (v : List Char) :
    applyContainerField c ("Labels".toList, v) = { c with Labels := v } := by
  have h : lowerAscii "Labels".toList = "labels".toList := by decide
  simp only [applyContainerField, h]
  simp +decide

theorem applyCF_localVolumes (c : ContainerInfo) (v : List Char) :
    applyContainerField c ("LocalVolumes".toList, v) = { c with LocalVolumes := v } := by
  have h : lowerAscii "LocalVolumes".toList = "localvolumes".toList := by decide
  simp only [applyContainerField, h]
  simp +decide

theorem applyCF_mounts (c : ContainerInfo) (v : List Char) :
    applyContainerField c ("Mounts".toList, v) = { c with Mounts := v } := by
  have h : lowerAscii "Mounts".toList = "mounts".toList := by decide
  simp only [applyContainerField, h]
  simp +decide

theorem applyCF_names (c : ContainerInfo) (v : List Char) :
    applyContainerField c ("Names".toList, v) = { c with Names := v } := by
  have h : lowerAscii "Names".toList = "names".toList := by decide
  simp only [applyContainerField, h]
  simp +decide

theorem applyCF_networks (c : ContainerInfo) (v : List Char) :
    applyContainerField c ("Networks".toList, v) = { c with Networks := v } := by
  have h : lowerAscii "Networks".toList = "networks".toList := by decide
  simp only [applyContainerField, h]
  simp +decide

theorem applyCF_ports (c : ContainerInfo) (v : List Char) :
    applyContainerField c ("Ports".toList, v) = { c with Ports := v } := by
  have h : lowerAscii "Ports".toList = "ports".toList := by decide
  simp only [applyContainerField, h]
  simp +decide

theorem applyCF_runningFor (c : ContainerInfo) (v : List Char) :
    applyContainerField c ("RunningFor".toList, v) = { c with RunningFor := v } := by
  have h : lowerAscii "RunningFor".toList = "runningfor".toList := by decide
  simp only [applyContainerField, h]
  simp +decide

theorem applyCF_size (c : ContainerInfo) (v : List Char) :
    applyContainerField c ("Size".toList, v) = { c with Size := v } := by
  have h : lowerAscii "Size".toList = "size".toList := by decide
  simp only [applyContainerField, h]
  simp +decide

theorem applyCF_state (c : ContainerInfo) (v : List Char) :
    applyContainerField c ("State".toList, v) = { c with State := v } := by
  have h : lowerAscii "State".toList = "state".toList := by decide
  simp only [applyContainerField, h]
  simp +decide

theorem applyCF_status (c : ContainerInfo) (v : List Char) :
    applyContainerField c ("Status".toList, v) = { c with Status := v } := by
  have h : lowerAscii "Status".toList = "status".toList := by decide
  simp only [applyContainerField, h]
  simp +decide

/-- Decoding the members of a rendered container record rebuilds the record
(all keys match their struct tags case-insensitively, as in Go). -/
theorem assembleContainer (r : ContainerInfo) :
    (containerKVs r).foldl applyContainerField zeroContainer = r := by
  simp only [containerKVs, List.foldl_cons, List.foldl_nil, applyCF_command,
    applyCF_createdAt, applyCF_id, applyCF_image, applyCF_labels,
    applyCF_localVolumes, applyCF_mounts, applyCF_names, applyCF_networks,
    applyCF_ports, applyCF_runningFor, applyCF_size, applyCF_state, applyCF_status]

theorem plainVal_charsOk (v : List Char) (h : PlainVal v) : CharsOk v := h.1

theorem charsGood_mk (k v : List Char) (h1 : CharsOk k) (h2 : CharsOk v) :
    CharsOk (k, v).1 ∧ CharsOk (k, v).2 := ⟨h1, h2⟩

theorem charsGood_of_plain (r : ContainerInfo) (h : PlainContainer r) :
    ∀ kv ∈ containerKVs r, CharsOk kv.1 ∧ CharsOk kv.2 := by
  intro kv hkv
  simp only [containerKVs, List.mem_cons, List.not_mem_nil, or_false] at hkv
  rcases hkv with rfl | rfl | rfl | rfl | rfl | rfl | rfl | rfl | rfl | rfl | rfl | rfl | rfl | rfl
  · exact charsGood_mk _ _ (by decide) (plainVal_charsOk _ h.1)
  · exact charsGood_mk _ _ (by decide) (plainVal_charsOk _ h.2.1)
  · exact charsGood_mk _ _ (by decide) (plainVal_charsOk _ h.2.2.1)
  · exact charsGood_mk _ _ (by decide) (plainVal_charsOk _ h.2.2.2.1)
  · exact charsGood_mk _ _ (by decide) (plainVal_charsOk _ h.2.2.2.2.1)
  · exact charsGood_mk _ _ (by decide) (plainVal_charsOk _ h.2.2.2.2.2.1)
  · exact charsGood_mk _ _ (by decide) (plainVal_charsOk _ h.2.2.2.2.2.2.1)
  · exact charsGood_mk _ _ (by decide) (plainVal_charsOk _ h.2.2.2.2.2.2.2.1)
  · exact charsGood_mk _ _ (by decide) (plainVal_charsOk _ h.2.2.2.2.2.2.2.2.1)
  · exact charsGood_mk _ _ (by decide) (plainVal_charsOk _ h.2.2.2.2.2.2.2.2.2.1)
  · exact charsGood_mk _ _ (by decide) (plainVal_charsOk _ h.2.2.2.2.2.2.2.2.2.2.1)
  · exact charsGood_mk _ _ (by decide) (plainVal_charsOk _ h.2.2.2.2.2.2.2.2.2.2.2.1)
  · exact charsGood_mk _ _ (by decide) (plainVal_charsOk _ h.2.2.2.2.2.2.2.2.2.2.2.2.1)
  · exact charsGood_mk _ _ (by decide) (plainVal_charsOk _ h.2.2.2.2.2.2.2.2.2.2.2.2.2)

/-- Folding the string-member decode over string-valued members is the
plain field fold. -/
theorem decode_members_str (ms : List (List Char × List Char)) :
    (ms.map (fun kv => (kv.1, Jval.str kv.2))).foldl decodeContainerMember zeroContainer
      = ms.foldl applyContainerField zeroContainer := by
  rw [List.foldl_map]
  rfl

/-- Unmarshalling a rendered container object rebuilds the record. -/
theorem unmarshal_objRender (r : ContainerInfo) (h : PlainContainer r) :
    unmarshalContainer (objRender (containerKVs r)) = r := by
  show (match parseJsonDoc (objRender (containerKVs r)) with
    | some (Jval.obj ms) => ms.foldl decodeContainerMember zeroContainer
    | _ => zeroContainer) = r
  rw [parseJsonDoc_objRender (containerKVs r) (by simp [containerKVs]) (charsGood_of_plain r h)]
  show ((containerKVs r).map (fun kv => (kv.1, Jval.str kv.2))).foldl
      decodeContainerMember zeroContainer = r
  rw [decode_members_str]
  exact assembleContainer r

/-- Fragment processing (trim, strip quote, unmarshal) inverts rendering on
a well-formed record. -/
theorem procFrag_render (r : ContainerInfo) (h : PlainContainer r) :
    procContainerFragment (fragRender r) = r := by
  have hshape : fragRender r =
      lbraceC :: ((membersRender (containerKVs r) ++ [rbraceC]) ++ [quoteC, '\n']) := by
    simp [fragRender, objRender]
  have hshape2 : lbraceC :: ((membersRender (containerKVs r) ++ [rbraceC]) ++ [quoteC]) =
      (lbraceC :: (membersRender (containerKVs r) ++ [rbraceC])) ++ [quoteC] := by
    simp
  show unmarshalContainer (TrimSuffix (trimSpaceGo (fragRender r)) [quoteC]) = r
  rw [hshape, trimSpaceGo_frag, hshape2, trimSuffix_quote]
  exact unmarshal_objRender r h

/-- The container loop is a map plus classification counts over the
fragments it processes. -/
theorem contScan_foldChar :
    ∀ (l : List (List Char)) (acc : ContScan),
      l.foldl contStep acc =
        { stopped := acc.stopped +
            (l.map procContainerFragment).countP (fun c => decide (c.State = "exited".toList)),
          running := acc.running +
            (l.map procContainerFragment).countP (fun c => ! decide (c.State = "exited".toList)),
          containerOutput := acc.containerOutput ++ l.map procContainerFragment } := by
  intro l
  induction l with
  | nil => intro acc; simp
  | cons cont l2 ih =>
    intro acc
    obtain ⟨s, rn, out⟩ := acc
    rw [List.foldl_cons, ih]
    simp only [contStep, List.map_cons, List.countP_cons, Function.comp_apply,
      ContScan.mk.injEq]
    by_cases hst : (procContainerFragment cont).State = ['e', 'x', 'i', 't', 'e', 'd']
    · refine ⟨?_, ?_, ?_⟩ <;> simp [hst] <;> omega
    · refine ⟨?_, ?_, ?_⟩ <;> simp [hst] <;> omega

theorem contScan_render_output (rs : List ContainerInfo)
    (h : ∀ r ∈ rs, PlainContainer r) :
    (contScan (containersArray (renderContainersBlob rs))).containerOutput = rs := by
  have harr := containersArray_render rs h
  have hdrop : (containersArray (renderContainersBlob rs)).drop 1 = rs.map fragRender := by
    rw [harr]
    simp
  show (((containersArray (renderContainersBlob rs)).drop 1).foldl contStep
      { stopped := 0, running := 0, containerOutput := [] }).containerOutput = rs
  rw [hdrop, contScan_foldChar]
  simp only [List.nil_append, List.map_map]
  have : List.map (procContainerFragment ∘ fragRender) rs = List.map id rs :=
    List.map_congr_left (fun r hr => procFrag_render r (h r hr))
  rw [this]
  exact List.map_id rs

theorem unmarshalContainer_none (s : List Char) (h : parseJsonDoc s = none) :
    unmarshalContainer s = zeroContainer := by
  show (match parseJsonDoc s with
    | some (Jval.obj ms) => ms.foldl decodeContainerMember zeroContainer
    | _ => zeroContainer) = zeroContainer
  rw [h]

/-- The image loop counts exactly its fragments and appends each decode. -/
theorem imgScan_foldChar :
    ∀ (l : List (List Char)) (acc : ImgScan),
      l.foldl imgStep acc =
        { totalImages := acc.totalImages + l.length,
          imageOutput := acc.imageOutput ++ l.map procImageFragment } := by
  intro l
  induction l with
  | nil => intro acc; simp
  | cons img l2 ih =>
    intro acc
    rw [List.foldl_cons, ih]
    simp only [imgStep, List.length_cons, List.map_cons, ImgScan.mk.injEq]
    refine ⟨by omega, by simp⟩

theorem countP_bool_split {α : Type} (p : α → Bool) (l : List α) :
    l.countP p + l.countP (fun a => ! p a) = l.length := by
  induction l with
  | nil => simp
  | cons a l2 ih =>
    by_cases hp : p a = true <;> simp [List.countP_cons, hp] <;> omega

theorem contScan_counts (arr : List (List Char)) :
    (contScan arr).stopped + (contScan arr).running = (contScan arr).containerOutput.length := by
  show ((arr.drop 1).foldl contStep { stopped := 0, running := 0, containerOutput := [] }).stopped +
    ((arr.drop 1).foldl contStep { stopped := 0, running := 0, containerOutput := [] }).running =
    ((arr.drop 1).foldl contStep { stopped := 0, running := 0, containerOutput := [] }).containerOutput.length
  rw [contScan_foldChar]
  simp only [Nat.zero_add, List.nil_append, List.length_map]
  have := countP_bool_split (fun c => decide (c.State = "exited".toList))
    ((arr.drop 1).map procContainerFragment)
  simp only [List.length_map] at this
  omega

theorem imgScan_counts (arr : List (List Char)) :
    (imgScan arr).totalImages = (imgScan arr).imageOutput.length := by
  show ((arr.drop 1).foldl imgStep { totalImages := 0, imageOutput := [] }).totalImages =
    ((arr.drop 1).foldl imgStep { totalImages := 0, imageOutput := [] }).imageOutput.length
  rw [imgScan_foldChar]
  simp

theorem probeEntryUpdate_name (kind : ProbeKind) (env out : List Char) (d : DockerEnvironment) :
    (probeEntryUpdate kind env out d).Environment = d.Environment := by
  cases kind <;>
    simp only [probeEntryUpdate, versionEntryUpdate, containersEntryUpdate, imagesEntryUpdate] <;>
    split_ifs <;> rfl

theorem executeAction_names (a : ActionInvocation) (env : List Char) (m : DockerMonitor) :
    ((executeAction a env m).1.DockerEnvironments).map (fun d => d.Environment) =
      m.DockerEnvironments.map (fun d => d.Environment) := by
  obtain ⟨kind, res⟩ := a
  cases res with
  | error e => rfl
  | ok out =>
    cases kind with
    | version =>
      show ((m.DockerEnvironments.map (versionEntryUpdate env out)).map fun d => d.Environment) = _
      rw [List.map_map]
      apply List.map_congr_left
      intro d _
      show (versionEntryUpdate env out d).Environment = d.Environment
      simp only [versionEntryUpdate]
      split_ifs <;> rfl
    | containersStatus =>
      show ((m.DockerEnvironments.map
        (containersEntryUpdate env (contScan (containersArray out)))).map fun d => d.Environment) = _
      rw [List.map_map]
      apply List.map_congr_left
      intro d _
      show (containersEntryUpdate env (contScan (containersArray out)) d).Environment = d.Environment
      simp only [containersEntryUpdate]
      split_ifs <;> rfl
    | localImages =>
      show ((m.DockerEnvironments.map
        (imagesEntryUpdate env (imgScan (imagesArray out)))).map fun d => d.Environment) = _
      rw [List.map_map]
      apply List.map_congr_left
      intro d _
      show (imagesEntryUpdate env (imgScan (imagesArray out)) d).Environment = d.Environment
      simp only [imagesEntryUpdate]
      split_ifs <;> rfl

theorem runActions_names :
    ∀ (acts : List ActionInvocation) (env : List Char) (m : DockerMonitor),
      ((runActions acts env m).1.DockerEnvironments).map (fun d => d.Environment) =
        m.DockerEnvironments.map (fun d => d.Environment) := by
  intro acts
  induction acts with
  | nil => intro env m; rfl
  | cons a rest ih =>
    intro env m
    rcases hea : executeAction a env m with ⟨m2, e2⟩
    have hnames : m2.DockerEnvironments.map (fun d => d.Environment) =
        m.DockerEnvironments.map (fun d => d.Environment) := by
      have hh := executeAction_names a env m
      rw [hea] at hh
      exact hh
    cases e2 with
    | none =>
      have hr : runActions (a :: rest) env m = runActions rest env m2 := by
        simp [runActions, hea]
      rw [hr, ih env m2]
      exact hnames
    | some e =>
      have hr : runActions (a :: rest) env m = (m2, some e) := by
        simp [runActions, hea]
      rw [hr]
      exact hnames

theorem runWorkflows_names :
    ∀ (ws : List Workflow) (m : DockerMonitor),
      ((runWorkflows ws m).1.DockerEnvironments).map (fun d => d.Environment) =
        m.DockerEnvironments.map (fun d => d.Environment) := by
  intro ws
  induction ws with
  | nil => intro m; rfl
  | cons w rest ih =>
    intro m
    show ((runWorkflows rest (executeActions w m).1).1.DockerEnvironments).map
      (fun d => d.Environment) = _
    rw [ih]
    exact runActions_names w.Actions w.Name m

theorem contScan_eq (arr : List (List Char)) :
    contScan arr =
      { stopped := ((arr.drop 1).map procContainerFragment).countP
          (fun c => decide (c.State = "exited".toList))
        running := ((arr.drop 1).map procContainerFragment).countP
          (fun c => ! decide (c.State = "exited".toList))
        containerOutput := (arr.drop 1).map procContainerFragment } := by
  show (arr.drop 1).foldl contStep { stopped := 0, running := 0, containerOutput := [] } = _
  rw [contScan_foldChar]
  simp

/-- C1: a blob of N well-formed concatenated quoted records (each starting
with the `"{"Command":` marker, all field values plain) is split by
`CheckContainersStatus.execute` into exactly N parsed records, in order,
with every recognized field equal to its source field. -/
theorem C1_splitter_exact (rs : List ContainerInfo)
    (h : ∀ r ∈ rs, PlainContainer r) :
    (contScan (containersArray (renderContainersBlob rs))).containerOutput = rs ∧
    (contScan (containersArray (renderContainersBlob rs))).containerOutput.length = rs.length := by
  have hout := contScan_render_output rs h
  exact ⟨hout, by rw [hout]⟩

/-- Witness for C1 at a concrete two-record blob. -/
theorem C1_splitter_exact_witness :
    (∀ r ∈ [recExited, recRunning], PlainContainer r) ∧
    ((contScan (containersArray (renderContainersBlob [recExited, recRunning]))).containerOutput
        = [recExited, recRunning] ∧
     (contScan (containersArray (renderContainersBlob [recExited, recRunning]))).containerOutput.length
        = [recExited, recRunning].length) :=
  ⟨by decide, C1_splitter_exact [recExited, recRunning] (by decide)⟩

/-- C2: on any blob, the container loop emits one record per split fragment
(after the discarded fragment 0); a fragment whose processed text fails
JSON syntax validation — the case where `Unmarshal` reports an error and
leaves its target untouched — contributes the zero-valued record at its
position, without aborting the split or altering other positions. -/
theorem C2_parse_failure_isolated (out : List Char) (i : Nat) :
    (contScan (containersArray out)).containerOutput.length
        = (containersArray out).length - 1 ∧
    (contScan (containersArray out)).containerOutput[i]? =
      ((containersArray out)[i + 1]?).map procContainerFragment ∧
    (∀ frag, (containersArray out)[i + 1]? = some frag →
      parseJsonDoc (TrimSuffix (trimSpaceGo frag) [quoteC]) = none →
      (contScan (containersArray out)).containerOutput[i]? = some zeroContainer) := by
  have hout : (contScan (containersArray out)).containerOutput =
      ((containersArray out).drop 1).map procContainerFragment := by
    rw [contScan_eq]
  refine ⟨?_, ?_, ?_⟩
  · rw [hout]
    simp
  · rw [hout]
    simp [List.getElem?_map, List.getElem?_drop]
  · intro frag hfrag hparse
    rw [hout]
    simp only [List.getElem?_map, List.getElem?_drop]
    have hidx : (containersArray out)[1 + i]? = some frag := by
      rw [Nat.add_comm]
      exact hfrag
    rw [hidx]
    have hz : procContainerFragment frag = zeroContainer :=
      unmarshalContainer_none _ hparse
    simp [hz]

/-- Witness for C2: a three-fragment blob whose middle record is truncated
yields three records, the middle one zero-valued, the others intact. -/
theorem C2_parse_failure_isolated_witness :
    (contScan (containersArray corruptBlob)).containerOutput
        = [recExited, zeroContainer, recRunning] ∧
    (contScan (containersArray corruptBlob)).containerOutput[1]? = some zeroContainer :=
  ⟨by decide,
   (C2_parse_failure_isolated corruptBlob 1).2.2 corruptFrag (by decide) (by rfl)⟩

/-- C3: the container probe counts a record as stopped exactly when its
state is `"exited"` and as running otherwise, and overwrites the stopped
count, running count and record sequence of every matching entry wholesale. -/
theorem C3_classification (out env : List Char) (m : DockerMonitor) :
    (contScan (containersArray out)).stopped =
      (contScan (containersArray out)).containerOutput.countP
        (fun c => decide (c.State = "exited".toList)) ∧
    (contScan (containersArray out)).running =
      (contScan (containersArray out)).containerOutput.countP
        (fun c => ! decide (c.State = "exited".toList)) ∧
    (∀ (i : Nat) (d : DockerEnvironment), m.DockerEnvironments[i]? = some d →
      (updateContainersStatus m env out).DockerEnvironments[i]? =
        some (if d.Environment = env then
          { d with
              StoppedContainers := (contScan (containersArray out)).stopped
              RunningContainers := (contScan (containersArray out)).running
              ContainersInfo := (contScan (containersArray out)).containerOutput }
        else d)) := by
  refine ⟨by rw [contScan_eq], by rw [contScan_eq], ?_⟩
  intro i d hd
  show ((m.DockerEnvironments.map
    (containersEntryUpdate env (contScan (containersArray out))))[i]?) = _
  rw [List.getElem?_map, hd]
  rfl

/-- Witness for C3 at the concrete scenario. -/
theorem C3_classification_witness :
    (contScan (containersArray scenarioBlob)).stopped = 1 ∧
    (contScan (containersArray scenarioBlob)).running = 1 ∧
    (updateContainersStatus scenarioMonitor ("Dev".toList) scenarioBlob).DockerEnvironments[0]? =
      some (if (initialEnvironment "Dev".toList).Environment = "Dev".toList then
        { initialEnvironment "Dev".toList with
            StoppedContainers := (contScan (containersArray scenarioBlob)).stopped
            RunningContainers := (contScan (containersArray scenarioBlob)).running
            ContainersInfo := (contScan (containersArray scenarioBlob)).containerOutput }
      else initialEnvironment "Dev".toList) :=
  ⟨by decide, by decide,
   (C3_classification scenarioBlob ("Dev".toList) scenarioMonitor).2.2 0
     (initialEnvironment "Dev".toList) (by decide)⟩

/-- C4: a workflow runs its probes in order and stops at the first probe
whose command invocation fails, returning that error with the registry as
the completed probes left it (no rollback, later probes never run); and the
workflow loop of `main` always continues to the next workflow regardless of
the previous workflow's error. -/
theorem C4_workflow_abort (pre post : List ActionInvocation) (f : ActionInvocation)
    (e : GoError) (env : List Char) (m m1 : DockerMonitor)
    (hpre : runActions pre env m = (m1, none))
    (hf : f.cmdResult = Except.error e) :
    runActions (pre ++ f :: post) env m = (m1, some e) ∧
    (∀ (w : Workflow) (ws : List Workflow) (m0 : DockerMonitor),
      runWorkflows (w :: ws) m0 =
        ((runWorkflows ws (executeActions w m0).1).1,
         (executeActions w m0).2 :: (runWorkflows ws (executeActions w m0).1).2)) := by
  constructor
  · induction pre generalizing m with
    | nil =>
      have hm : m = m1 := by
        have hh : (m, (none : Option GoError)) = (m1, none) := hpre
        exact (Prod.mk.injEq _ _ _ _).mp hh |>.1
      subst hm
      have hea : executeAction f env m = (m, some e) := by
        obtain ⟨kind, res⟩ := f
        simp only at hf
        subst hf
        rfl
      simp [runActions, hea]
    | cons a pre2 ih =>
      rcases hea : executeAction a env m with ⟨m2, e2⟩
      cases e2 with
      | none =>
        have hpre2 : runActions pre2 env m2 = (m1, none) := by
          have hh : runActions (a :: pre2) env m = runActions pre2 env m2 := by
            simp [runActions, hea]
          rw [hh] at hpre
          exact hpre
        have hstep : runActions ((a :: pre2) ++ f :: post) env m =
            runActions (pre2 ++ f :: post) env m2 := by
          simp [runActions, hea]
        rw [hstep]
        exact ih m2 hpre2
      | some e2 =>
        exfalso
        have hh : runActions (a :: pre2) env m = (m2, some e2) := by
          simp [runActions, hea]
        rw [hh] at hpre
        simp at hpre
  · intro w ws m0
    rfl

/-- Witness for C4: probe 1 succeeds and mutates, probe 2 fails, probe 3
never runs; the registry keeps probe 1's mutation. -/
theorem C4_workflow_abort_witness :
    runActions [{ kind := ProbeKind.containersStatus, cmdResult := Except.ok scenarioBlob }]
        ("Dev".toList) scenarioMonitor =
      (updateContainersStatus scenarioMonitor ("Dev".toList) scenarioBlob, none) ∧
    runActions
        ([{ kind := ProbeKind.containersStatus, cmdResult := Except.ok scenarioBlob }] ++
          { kind := ProbeKind.version, cmdResult := Except.error { msg := "spawn error".toList } } ::
          [{ kind := ProbeKind.localImages, cmdResult := Except.ok scenarioBlob }])
        ("Dev".toList) scenarioMonitor =
      (updateContainersStatus scenarioMonitor ("Dev".toList) scenarioBlob,
       some { msg := "spawn error".toList }) := by
  have h1 : runActions [{ kind := ProbeKind.containersStatus, cmdResult := Except.ok scenarioBlob }]
      ("Dev".toList) scenarioMonitor =
      (updateContainersStatus scenarioMonitor ("Dev".toList) scenarioBlob, none) := rfl
  exact ⟨h1,
    (C4_workflow_abort [{ kind := ProbeKind.containersStatus, cmdResult := Except.ok scenarioBlob }]
      [{ kind := ProbeKind.localImages, cmdResult := Except.ok scenarioBlob }]
      { kind := ProbeKind.version, cmdResult := Except.error { msg := "spawn error".toList } }
      { msg := "spawn error".toList } ("Dev".toList) scenarioMonitor
      (updateContainersStatus scenarioMonitor ("Dev".toList) scenarioBlob) h1 rfl).1⟩

/-- C5: a probe whose command succeeds updates, for its kind, every registry
entry whose name equals the target (duplicates included), leaving the rest
unchanged. -/
theorem C5_update_all_matches (kind : ProbeKind) (out env : List Char)
    (m : DockerMonitor) (i : Nat) (d : DockerEnvironment)
    (hd : m.DockerEnvironments[i]? = some d) :
    ((executeAction { kind := kind, cmdResult := Except.ok out } env m).1.DockerEnvironments)[i]? =
      some (if d.Environment = env then probeApplied kind out d else d) := by
  cases kind with
  | version =>
    show ((m.DockerEnvironments.map (versionEntryUpdate env out))[i]?) = _
    rw [List.getElem?_map, hd]
    by_cases henv : d.Environment = env <;> simp [versionEntryUpdate, probeApplied, henv]
  | containersStatus =>
    show ((m.DockerEnvironments.map
      (containersEntryUpdate env (contScan (containersArray out))))[i]?) = _
    rw [List.getElem?_map, hd]
    by_cases henv : d.Environment = env <;> simp [containersEntryUpdate, probeApplied, henv]
  | localImages =>
    show ((m.DockerEnvironments.map
      (imagesEntryUpdate env (imgScan (imagesArray out))))[i]?) = _
    rw [List.getElem?_map, hd]
    by_cases henv : d.Environment = env <;> simp [imagesEntryUpdate, probeApplied, henv]

/-- Witness for C5 on a registry with duplicate names: both matching entries
receive the identical update. -/
theorem C5_update_all_matches_witness :
    ((executeAction { kind := ProbeKind.version, cmdResult := Except.ok ("20.10.8".toList) }
        ("Dev".toList) (NewDockerMonitor ["Dev".toList, "Dev".toList])).1.DockerEnvironments)[0]? =
      some (if (initialEnvironment "Dev".toList).Environment = "Dev".toList then
        probeApplied ProbeKind.version ("20.10.8".toList) (initialEnvironment "Dev".toList)
      else initialEnvironment "Dev".toList) ∧
    ((executeAction { kind := ProbeKind.version, cmdResult := Except.ok ("20.10.8".toList) }
        ("Dev".toList) (NewDockerMonitor ["Dev".toList, "Dev".toList])).1.DockerEnvironments)[1]? =
      some (if (initialEnvironment "Dev".toList).Environment = "Dev".toList then
        probeApplied ProbeKind.version ("20.10.8".toList) (initialEnvironment "Dev".toList)
      else initialEnvironment "Dev".toList) :=
  ⟨C5_update_all_matches ProbeKind.version ("20.10.8".toList) ("Dev".toList)
      (NewDockerMonitor ["Dev".toList, "Dev".toList]) 0 (initialEnvironment "Dev".toList)
      (by decide),
   C5_update_all_matches ProbeKind.version ("20.10.8".toList) ("Dev".toList)
      (NewDockerMonitor ["Dev".toList, "Dev".toList]) 1 (initialEnvironment "Dev".toList)
      (by decide)⟩

/-- C6: executing any probe against one environment name leaves every entry
with a different name entirely unchanged. -/
theorem C6_registry_isolation (a : ActionInvocation) (env : List Char)
    (m : DockerMonitor) (i : Nat) (d : DockerEnvironment)
    (hd : m.DockerEnvironments[i]? = some d) (hne : d.Environment ≠ env) :
    ((executeAction a env m).1.DockerEnvironments)[i]? = some d := by
  obtain ⟨kind, res⟩ := a
  cases res with
  | error e => exact hd
  | ok out =>
    cases kind with
    | version =>
      show ((m.DockerEnvironments.map (versionEntryUpdate env out))[i]?) = _
      rw [List.getElem?_map, hd]
      simp [versionEntryUpdate, hne]
    | containersStatus =>
      show ((m.DockerEnvironments.map
        (containersEntryUpdate env (contScan (containersArray out))))[i]?) = _
      rw [List.getElem?_map, hd]
      simp [containersEntryUpdate, hne]
    | localImages =>
      show ((m.DockerEnvironments.map
        (imagesEntryUpdate env (imgScan (imagesArray out))))[i]?) = _
      rw [List.getElem?_map, hd]
      simp [imagesEntryUpdate, hne]

/-- Witness for C6: the spec's concrete scenario — registry `["Dev","UAT"]`,
container probe against "Dev" with one exited and one running record: Dev
gets counts 1/1, UAT stays at its zero defaults. -/
theorem C6_registry_isolation_witness :
    scenarioMonitor.DockerEnvironments[1]? = some (initialEnvironment "UAT".toList) ∧
    ((executeAction { kind := ProbeKind.containersStatus, cmdResult := Except.ok scenarioBlob }
        ("Dev".toList) scenarioMonitor).1.DockerEnvironments)[1]? =
      some (initialEnvironment "UAT".toList) ∧
    ((executeAction { kind := ProbeKind.containersStatus, cmdResult := Except.ok scenarioBlob }
        ("Dev".toList) scenarioMonitor).1.DockerEnvironments)[0]? =
      some { initialEnvironment "Dev".toList with
               StoppedContainers := 1
               RunningContainers := 1
               ContainersInfo := [recExited, recRunning] } :=
  ⟨by decide,
   C6_registry_isolation { kind := ProbeKind.containersStatus, cmdResult := Except.ok scenarioBlob }
     ("Dev".toList) scenarioMonitor 1 (initialEnvironment "UAT".toList) (by decide) (by decide),
   by decide⟩

/-- C7: a probe returns an error exactly when its command invocation fails,
and a failing probe returns before touching the registry; per-record parse
failures never surface as errors. -/
theorem C7_error_iff_invocation (a : ActionInvocation) (env : List Char) (m : DockerMonitor) :
    (∀ e, a.cmdResult = Except.error e → executeAction a env m = (m, some e)) ∧
    (∀ out, a.cmdResult = Except.ok out → (executeAction a env m).2 = none) := by
  obtain ⟨kind, res⟩ := a
  constructor
  · intro e he
    cases res with
    | ok out => simp at he
    | error e2 =>
      simp only [Except.error.injEq] at he
      subst he
      rfl
  · intro out ho
    cases res with
    | error e2 => simp at ho
    | ok out2 =>
      simp only [Except.ok.injEq] at ho
      subst ho
      cases kind <;> rfl

/-- Witness for C7: a failed invocation returns the error with the registry
untouched; a successful invocation over a blob with a corrupt record still
returns no error. -/
theorem C7_error_iff_invocation_witness :
    executeAction { kind := ProbeKind.version, cmdResult := Except.error { msg := "boom".toList } }
        ("Dev".toList) scenarioMonitor = (scenarioMonitor, some { msg := "boom".toList }) ∧
    (executeAction { kind := ProbeKind.containersStatus, cmdResult := Except.ok corruptBlob }
        ("Dev".toList) scenarioMonitor).2 = none :=
  ⟨(C7_error_iff_invocation
      { kind := ProbeKind.version, cmdResult := Except.error { msg := "boom".toList } }
      ("Dev".toList) scenarioMonitor).1 { msg := "boom".toList } rfl,
   (C7_error_iff_invocation
      { kind := ProbeKind.containersStatus, cmdResult := Except.ok corruptBlob }
      ("Dev".toList) scenarioMonitor).2 corruptBlob rfl⟩

/-- C8: `NewDockerMonitor` creates exactly one entry per input name, in
input order, with zero/empty defaults in every field; and no entry is ever
deleted (or renamed) by any sequence of workflow runs. -/
theorem C8_construction_defaults :
    (∀ envs : List (List Char),
      (NewDockerMonitor envs).DockerEnvironments.length = envs.length) ∧
    (∀ (envs : List (List Char)) (i : Nat) (e : List Char), envs[i]? = some e →
      (NewDockerMonitor envs).DockerEnvironments[i]? =
        some { Environment := e
               StoppedContainers := 0
               RunningContainers := 0
               DockerVersion := []
               TotalLocalDockerImages := 0
               ContainersInfo := []
               ImagesInfo := [] }) ∧
    (∀ (ws : List Workflow) (m : DockerMonitor),
      ((runWorkflows ws m).1.DockerEnvironments).map (fun d => d.Environment) =
        m.DockerEnvironments.map (fun d => d.Environment)) := by
  refine ⟨?_, ?_, runWorkflows_names⟩
  · intro envs
    simp [NewDockerMonitor]
  · intro envs i e he
    show ((envs.map initialEnvironment)[i]?) = _
    rw [List.getElem?_map, he]
    rfl

/-- Witness for C8 at the two names of `main`. -/
theorem C8_construction_defaults_witness :
    (NewDockerMonitor mainEnvs).DockerEnvironments[0]? =
      some { Environment := "Dev Environment".toList
             StoppedContainers := 0
             RunningContainers := 0
             DockerVersion := []
             TotalLocalDockerImages := 0
             ContainersInfo := []
             ImagesInfo := [] } :=
  C8_construction_defaults.2.1 mainEnvs 0 ("Dev Environment".toList) (by decide)

/-- C9: in every monitor state reachable from construction by successful
probe executions, each entry's stopped plus running count equals the length
of its container-record sequence, and its image total equals the length of
its image-record sequence. -/
theorem C9_counts_invariant (envs : List (List Char)) (m : DockerMonitor)
    (h : ReachableState envs m) :
    ∀ d ∈ m.DockerEnvironments, countsInvariant d := by
  induction h with
  | base =>
    intro d hd
    simp only [NewDockerMonitor, List.mem_map] at hd
    obtain ⟨e, _, rfl⟩ := hd
    exact ⟨rfl, rfl⟩
  | step m m2 a env hre heq ih =>
    intro d hd
    obtain ⟨kind, res⟩ := a
    cases res with
    | error e =>
      exfalso
      have hh : (m, some e) = (m2, none) := heq
      simp at hh
    | ok out =>
      cases kind with
      | version =>
        have hm2 : m2 = updateDockerVersion m env out := by
          have hh : (updateDockerVersion m env out, (none : Option GoError)) = (m2, none) := heq
          exact ((Prod.mk.injEq _ _ _ _).mp hh).1.symm
        subst hm2
        simp only [updateDockerVersion, List.mem_map] at hd
        obtain ⟨d0, hd0, rfl⟩ := hd
        have hinv := ih d0 hd0
        unfold countsInvariant at hinv ⊢
        simp only [versionEntryUpdate]
        split_ifs <;> exact hinv
      | containersStatus =>
        have hm2 : m2 = updateContainersStatus m env out := by
          have hh : (updateContainersStatus m env out, (none : Option GoError)) = (m2, none) := heq
          exact ((Prod.mk.injEq _ _ _ _).mp hh).1.symm
        subst hm2
        simp only [updateContainersStatus, List.mem_map] at hd
        obtain ⟨d0, hd0, rfl⟩ := hd
        have hinv := ih d0 hd0
        unfold countsInvariant at hinv ⊢
        simp only [containersEntryUpdate]
        split_ifs with hname
        · exact ⟨contScan_counts (containersArray out), hinv.2⟩
        · exact hinv
      | localImages =>
        have hm2 : m2 = updateLocalImages m env out := by
          have hh : (updateLocalImages m env out, (none : Option GoError)) = (m2, none) := heq
          exact ((Prod.mk.injEq _ _ _ _).mp hh).1.symm
        subst hm2
        simp only [updateLocalImages, List.mem_map] at hd
        obtain ⟨d0, hd0, rfl⟩ := hd
        have hinv := ih d0 hd0
        unfold countsInvariant at hinv ⊢
        simp only [imagesEntryUpdate]
        split_ifs with hname
        · exact ⟨hinv.1, imgScan_counts (imagesArray out)⟩
        · exact hinv

/-- Witness for C9: the invariant at the Dev entry after construction plus
one successful container probe on the scenario registry. -/
theorem C9_counts_invariant_witness :
    countsInvariant
      { initialEnvironment ("Dev".toList) with
          StoppedContainers := 1
          RunningContainers := 1
          ContainersInfo := [recExited, recRunning] } :=
  C9_counts_invariant ["Dev".toList, "UAT".toList]
    (updateContainersStatus scenarioMonitor ("Dev".toList) scenarioBlob)
    (ReachableState.step scenarioMonitor
      (updateContainersStatus scenarioMonitor ("Dev".toList) scenarioBlob)
      { kind := ProbeKind.containersStatus, cmdResult := Except.ok scenarioBlob }
      ("Dev".toList) ReachableState.base rfl)
    { initialEnvironment ("Dev".toList) with
        StoppedContainers := 1
        RunningContainers := 1
        ContainersInfo := [recExited, recRunning] }
    (by decide)

/-- C10: the final diagnostic of `main` reads
`DockerEnvironments[0].ContainersInfo[0].Image` unguarded; in the guarded
embedding the value exists exactly when the first environment has at least
one container record, and the error branch (`none`) is reached by the real
`main` shape whenever all probe invocations fail, since then the first
environment's record sequence stays empty. -/
theorem C10_final_access :
    (∀ (m : DockerMonitor) (d : DockerEnvironment) (rest : List DockerEnvironment),
      m.DockerEnvironments = d :: rest → d.ContainersInfo = [] →
      finalDiagnostic m = none) ∧
    (∀ (m : DockerMonitor) (d : DockerEnvironment) (rest : List DockerEnvironment)
        (c : ContainerInfo) (crest : List ContainerInfo),
      m.DockerEnvironments = d :: rest → d.ContainersInfo = c :: crest →
      finalDiagnostic m = some c.Image) ∧
    (∀ e1 e2 e3 e4 e5 e6 : GoError,
      finalDiagnostic ((runWorkflows (mainWorkflows (Except.error e1) (Except.error e2)
        (Except.error e3) (Except.error e4) (Except.error e5) (Except.error e6))
        (NewDockerMonitor mainEnvs)).1) = none) := by
  refine ⟨?_, ?_, ?_⟩
  · intro m d rest h1 h2
    simp [finalDiagnostic, h1, h2]
  · intro m d rest c crest h1 h2
    simp [finalDiagnostic, h1, h2]
  · intro e1 e2 e3 e4 e5 e6
    rfl

/-- Witness for C10: the freshly constructed registry of `main` has an empty
first record sequence, so the guarded access takes the error branch. -/
theorem C10_final_access_witness :
    finalDiagnostic (NewDockerMonitor mainEnvs) = none :=
  C10_final_access.1 (NewDockerMonitor mainEnvs)
    (initialEnvironment ("Dev Environment".toList))
    [initialEnvironment ("UAT Environment".toList)] rfl rfl

